import Mathlib

/-!
Verification of the CPIC download/build pipeline
(`src/stages/01_download_build.py`).

The script fetches seven REST endpoints, decodes each JSON array of
objects into a pandas DataFrame, renames the columns to lower snake
case, JSON-serializes nested (dict/list) cells, writes one parquet file
per endpoint plus an allele-function summary file, and finally reports
row counts.

Shallow embedding conventions:
* JSON values (which are also the Python cell values of the DataFrames)
  are `JVal`; missing keys and `None`/`NaN` cells are both `JVal.null`.
* Numbers are modelled as integers; `json.dumps` is modelled by
  `serialize`/`dumps`, with the default separators `", "` and `": "`
  of the Python standard library and minimal string escaping
  (quote, backslash, newline, tab, carriage return).
* A DataFrame is a row count plus ordered named columns of cells.
* Failure points of the Python code (HTTP errors, the pandas
  `AttributeError` raised by `df[col].dtype` when a column label is
  duplicated, and `to_parquet` errors) are modelled with `Except`.
-/

mutual
inductive JVal : Type where
  | null : JVal
  | bool (b : Bool) : JVal
  | num (n : Int) : JVal
  | str (s : String) : JVal
  | arr (elems : JList) : JVal
  | obj (fields : JObj) : JVal
deriving DecidableEq
inductive JList : Type where
  | nil : JList
  | cons (hd : JVal) (tl : JList) : JList
deriving DecidableEq
inductive JObj : Type where
  | nil : JObj
  | cons (key : String) (v : JVal) (tl : JObj) : JObj
deriving DecidableEq
end

/-- Decimal digit to character. -/
def digitChar : Nat → Char
  | 0 => '0' | 1 => '1' | 2 => '2' | 3 => '3' | 4 => '4'
  | 5 => '5' | 6 => '6' | 7 => '7' | 8 => '8' | _ => '9'

/-- Decimal representation of a natural number (fuel-driven so that it
reduces definitionally; `natToChars` supplies sufficient fuel). -/
def natToCharsAux : Nat → Nat → List Char
  | 0, _ => []
  | fuel+1, n => if n < 10 then [digitChar n] else natToCharsAux fuel (n / 10) ++ [digitChar (n % 10)]

/-- Decimal representation of a natural number. -/
def natToChars (n : Nat) : List Char := natToCharsAux (n+1) n

/-- Decimal representation of an integer, as printed by `json.dumps`. -/
def intToChars (n : Int) : List Char :=
  if n < 0 then '-' :: natToChars n.natAbs else natToChars n.natAbs

/-- JSON string escaping of one character (the escapes `json.dumps`
emits for the characters our model represents). -/
def escChar (c : Char) : List Char :=
  if c = '"' then ['\\', '"']
  else if c = '\\' then ['\\', '\\']
  else if c = '\n' then ['\\', 'n']
  else if c = '\t' then ['\\', 't']
  else if c = '\r' then ['\\', 'r']
  else [c]

/-- JSON string escaping, characterwise. -/
def escapeStr (cs : List Char) : List Char := (cs.map escChar).flatten

mutual
/-- The text `json.dumps` produces for a JSON value (default
separators: `", "` between items, `": "` after keys). -/
def serialize : JVal → List Char
  | .null => ("null").data
  | .bool true => ("true").data
  | .bool false => ("false").data
  | .num n => intToChars n
  | .str s => '"' :: (escapeStr s.data ++ ['"'])
  | .arr .nil => ['[', ']']
  | .arr (.cons x xs) => '[' :: (serialize x ++ serializeItems xs ++ [']'])
  | .obj .nil => ['\x7b','\x7d']
  | .obj (.cons k v ps) => '\x7b' :: ((('"' :: (escapeStr k.data ++ ['"', ':', ' '])) ++ serialize v) ++ serializeMembers ps ++ ['\x7d'])
termination_by structural v => v
/-- Serialization of the items of an array after the first one. -/
def serializeItems : JList → List Char
  | .nil => []
  | .cons x xs => ',' :: ' ' :: (serialize x ++ serializeItems xs)
termination_by structural xs => xs
/-- Serialization of the members of an object after the first one. -/
def serializeMembers : JObj → List Char
  | .nil => []
  | .cons k v ps => ',' :: ' ' :: ((('"' :: (escapeStr k.data ++ ['"', ':', ' '])) ++ serialize v) ++ serializeMembers ps)
termination_by structural ps => ps
end

/-- The Python expression `json.dumps(x)`. -/
def dumps (v : JVal) : String := String.mk (serialize v)

/-- Whether the Python value held by a cell is a `dict`. -/
def JVal.isObjVal : JVal → Bool
  | .obj _ => true
  | _ => false

/-- Whether the Python value held by a cell is a `list`. -/
def JVal.isArrVal : JVal → Bool
  | .arr _ => true
  | _ => false

/-- Whether a cell is missing (`None`/`NaN`), i.e. dropped by `dropna`. -/
def JVal.isNull : JVal → Bool
  | .null => true
  | _ => false

/-- One decoded JSON object of an endpoint response: a Python dict,
modelled as an association list (keys unique in practice; lookups take
the first occurrence). -/
abbrev Record := List (String × JVal)

/-- A pandas DataFrame: a row count and ordered named columns.
DataFrames built by this pipeline keep every column at length
`nrows`. -/
structure DataFrame where
  nrows : Nat
  cols : List (String × List JVal)
deriving DecidableEq

/-- The column labels of a DataFrame, in order. -/
def colNames (df : DataFrame) : List String := df.cols.map Prod.fst

/-- Ordered union of the keys of all records, first occurrence first —
the column order `pd.DataFrame(list_of_dicts)` produces. -/
def insertKey (acc : List String) (k : String) : List String :=
  if acc.contains k then acc else acc ++ [k]

/-- Ordered union of keys across records. -/
def unionKeys (rs : List Record) : List String :=
  rs.foldl (fun acc r => (r.map Prod.fst).foldl insertKey acc) []

/-- The Python expression `pd.DataFrame(data)` for a list of dicts:
columns are the union of keys in order of first appearance, one row per
record, missing keys becoming null (`NaN`) cells. -/
def pdDataFrame (rs : List Record) : DataFrame :=
  { nrows := rs.length,
    cols := (unionKeys rs).map (fun k => (k, rs.map (fun r => (List.lookup k r).getD .null))) }

/-- Python `str.strip()` (leading/trailing whitespace removed). -/
def pyStrip (cs : List Char) : List Char :=
  ((cs.dropWhile Char.isWhitespace).reverse.dropWhile Char.isWhitespace).reverse

/-- Python `str.lower()`, modelled on ASCII letters (`Char.toLower`
lower-cases exactly the letters `A`–`Z`, as CPython does on ASCII
column names). -/
def pyLower (cs : List Char) : List Char := cs.map Char.toLower

/-- Python `str.replace(a, b)` for single-character patterns. -/
def pyReplaceChar (a b : Char) (cs : List Char) : List Char :=
  cs.map (fun c => if c = a then b else c)

/-- The column renaming of line 66 of the script:
`str(c).strip().lower().replace(' ', '_').replace('-', '_')`. -/
def standardizeName (s : String) : String :=
  String.mk (pyReplaceChar '-' '_' (pyReplaceChar ' ' '_' (pyLower (pyStrip s.data))))

/-- The statement `df.columns = [standardize(c) for c in df.columns]`. -/
def standardizeColumns (df : DataFrame) : DataFrame :=
  { df with cols := df.cols.map (fun c => (standardizeName c.1, c.2)) }

/-- The cell transform of `flatten_dict_column`:
`json.dumps(x) if isinstance(x, dict) else x`. -/
def flattenCellDict (v : JVal) : JVal :=
  match v with
  | .obj f => .str (dumps (.obj f))
  | _ => v

/-- The cell transform of `flatten_list_column`:
`json.dumps(x) if isinstance(x, list) else x`. -/
def flattenCellList (v : JVal) : JVal :=
  match v with
  | .arr xs => .str (dumps (.arr xs))
  | _ => v

/-- The function `flatten_dict_column(df, col)`: if `col` is among the
columns, apply the dict-to-JSON-text transform to that column's cells
(applied to every column carrying the label). -/
def flatten_dict_column (df : DataFrame) (col : String) : DataFrame :=
  if (colNames df).contains col then
    { df with cols := df.cols.map (fun c => if c.1 == col then (c.1, c.2.map flattenCellDict) else c) }
  else df

/-- The function `flatten_list_column(df, col)`. -/
def flatten_list_column (df : DataFrame) (col : String) : DataFrame :=
  if (colNames df).contains col then
    { df with cols := df.cols.map (fun c => if c.1 == col then (c.1, c.2.map flattenCellList) else c) }
  else df

/-- The pandas dtype test `df[col].dtype == 'object'`. A column whose
cells include a string, dict, list or null is stored with dtype
`object`; an all-numeric or all-boolean column is not. (The model
declares numeric-with-null columns `object` although pandas stores them
as `float64`; in either case the first non-null sample is scalar, so no
cell is changed and the resulting table is the same.) -/
def dtypeIsObject (cells : List JVal) : Bool :=
  cells.any (fun v => match v with
    | .num _ => false
    | .bool _ => false
    | _ => true)

/-- The first non-null value of a column:
`df[col].dropna().head(1).values`. -/
def firstNonNull (cells : List JVal) : Option JVal :=
  (cells.filter (fun v => !v.isNull)).head?

/-- The expression `df[col]`. With a unique label it yields that
column (a Series). With a duplicated label pandas returns a DataFrame,
and the subsequent `.dtype` attribute access raises `AttributeError`;
with an absent label, `KeyError`. -/
def getSeries (df : DataFrame) (col : String) : Except String (List JVal) :=
  match df.cols.filter (fun c => c.1 == col) with
  | [] => .error ("KeyError")
  | [single] => .ok single.2
  | _ => .error ("AttributeError: dtype")

/-- One iteration of the flattening loop (lines 69–76): inspect the
dtype and the first non-null sample of `df[col]` and apply
`flatten_dict_column` / `flatten_list_column` accordingly. -/
def flattenStep (df : DataFrame) (col : String) : Except String DataFrame :=
  match getSeries df col with
  | .error e => .error e
  | .ok cells =>
    if dtypeIsObject cells then
      match firstNonNull cells with
      | some (.obj _) => .ok (flatten_dict_column df col)
      | some (.arr _) => .ok (flatten_list_column df col)
      | _ => .ok df
    else .ok df

/-- The loop `for col in df.columns: ...` of lines 69–76; the label
list is computed once, before the loop body rebinds `df`. -/
def flattenColumns (df : DataFrame) : Except String DataFrame :=
  List.foldlM flattenStep df (colNames df)

/-- The whole normalization applied to the decoded records of one
endpoint: `pd.DataFrame(data)`, column renaming, then cell
flattening (lines 63–76). Errors raised inside are caught by the
per-endpoint `except` block. -/
def normalizeRecords (rs : List Record) : Except String DataFrame :=
  flattenColumns (standardizeColumns (pdDataFrame rs))

deriving instance DecidableEq for Except

/-- The environment a run executes against: the outcome of each HTTP
fetch (`fetch_endpoint`: decoded records on a 2xx response, the raised
error otherwise) and whether `to_parquet` succeeds for a given output
file name. -/
structure Env where
  fetch : String → Except String (List Record)
  writeOk : String → Bool

/-- The mutable state of `main`: the `dataframes` dict, the parquet
files in the `brick` output directory (name and written table), and the
printed log lines. -/
structure PipelineState where
  dataframes : List (String × DataFrame)
  files : List (String × DataFrame)
  logs : List String
deriving DecidableEq

/-- The `endpoints` dict of `main` (logical name, URL path segment). -/
def endpoints : List (String × String) :=
  [("gene","gene"),("allele","allele"),("drug","drug"),("guideline","guideline"),
   ("recommendation","recommendation"),("diplotype","diplotype"),("pair","pair")]

/-- Output file name for an endpoint: `brick/cpic_{name}.parquet`. -/
def endpointFile (name : String) : String := "cpic_" ++ name ++ ".parquet"

/-- One iteration of the per-endpoint loop (lines 60–85), i.e. the
whole `try`/`except` block. A fetch error or a normalization error ends
the iteration with only a log line. An empty response (`if data:`
false) saves nothing. Otherwise the normalized table is stored in
`dataframes` first, and only then written with `to_parquet`; a write
error is caught after the `dataframes` entry was already inserted. -/
def processEndpoint (env : Env) (st : PipelineState) (ne : String × String) : PipelineState :=
  match env.fetch ne.2 with
  | .error e => { st with logs := st.logs ++ ["  - Error fetching " ++ ne.1 ++ ": " ++ e] }
  | .ok data =>
    if data.isEmpty then st
    else
      match normalizeRecords data with
      | .error e => { st with logs := st.logs ++ ["  - Error fetching " ++ ne.1 ++ ": " ++ e] }
      | .ok df =>
        if env.writeOk (endpointFile ne.1) then
          { st with
            dataframes := st.dataframes ++ [(ne.1, df)],
            files := st.files ++ [(endpointFile ne.1, df)],
            logs := st.logs ++ ["  - Saved " ++ toString df.nrows ++ " records to brick/" ++ endpointFile ne.1] }
        else
          { st with
            dataframes := st.dataframes ++ [(ne.1, df)],
            logs := st.logs ++ ["  - Error fetching " ++ ne.1 ++ ": write failed"] }

/-- The per-endpoint loop of `main`. -/
def runLoop (env : Env) : PipelineState :=
  endpoints.foldl (processEndpoint env) ⟨[], [], []⟩

/-- The `dataframes` entry one endpoint contributes: present exactly
when the fetch succeeded with at least one record and normalization
succeeded (a write failure does not remove it). -/
def dfEntry (env : Env) (ne : String × String) : Option (String × DataFrame) :=
  match env.fetch ne.2 with
  | .error _ => none
  | .ok data =>
    if data.isEmpty then none
    else
      match normalizeRecords data with
      | .error _ => none
      | .ok df => some (ne.1, df)

/-- The output file one endpoint contributes: present exactly when
fetch, normalization and the parquet write all succeeded. -/
def fileEntry (env : Env) (ne : String × String) : Option (String × DataFrame) :=
  match env.fetch ne.2 with
  | .error _ => none
  | .ok data =>
    if data.isEmpty then none
    else
      match normalizeRecords data with
      | .error _ => none
      | .ok df => if env.writeOk (endpointFile ne.1) then some (endpointFile ne.1, df) else none

/-- The fixed projection list of the allele function summary. -/
def key_cols : List String :=
  ["id","genesymbol","name","functionalstatus","clinicalfunctionalstatus","activityvalue","strength"]

/-- The expression `df[cols]` for a list of (present, unique) labels:
the named columns in the order of `cols`. -/
def selectColumns (df : DataFrame) (names : List String) : DataFrame :=
  { nrows := df.nrows,
    cols := names.filterMap (fun n => (df.cols.find? (fun c => c.1 == n)).map (fun c => (n, c.2))) }

/-- The allele function summary block (lines 88–101): if `allele` is in
`dataframes`, project the available key columns and write
`cpic_allele_functions.parquet`. This block is outside the loop's
`try`, so a write error here crashes the run (modelled as `.error`). -/
def alleleSummaryStep (env : Env) (st : PipelineState) : Except String PipelineState :=
  match List.lookup ("allele") st.dataframes with
  | none => .ok st
  | some adf =>
    let availableCols := key_cols.filter (fun c => (colNames adf).contains c)
    let summary := selectColumns adf availableCols
    if env.writeOk ("cpic_allele_functions.parquet") then
      .ok { st with
            files := st.files ++ [("cpic_allele_functions.parquet", summary)],
            logs := st.logs ++ ["  - Saved allele function summary: " ++ toString summary.nrows ++ " records"] }
    else .error ("write failed: cpic_allele_functions.parquet")

/-- The recommendation summary block (lines 104–113): if
`recommendation` is in `dataframes` it binds a `summary_file` path it
never uses and prints one line; no file is written. -/
def recommendationStep (st : PipelineState) : PipelineState :=
  match List.lookup ("recommendation") st.dataframes with
  | none => st
  | some rdf =>
    { st with logs := st.logs ++
        ["  - Recommendation data available with " ++ toString rdf.nrows ++ " gene-drug recommendations"] }

/-- Lexicographic comparison of character lists by code point — the
order `sorted()` uses on Python strings. -/
def charListLe (xs ys : List Char) : Bool :=
  match xs, ys with
  | [], _ => true
  | _, [] => false
  | x :: xs2, y :: ys2 =>
    if x.toNat < y.toNat then true
    else if y.toNat < x.toNat then false
    else charListLe xs2 ys2

/-- String comparison for the reporter's `sorted(...)`. -/
def strLe (a b : String) : Bool := charListLe a.data b.data

/-- Insertion into a name-sorted file list (for the reporter's
`sorted(brick_path.glob(...))`). -/
def insertSorted (x : String × DataFrame) : List (String × DataFrame) → List (String × DataFrame)
  | [] => [x]
  | y :: ys => if strLe x.1 y.1 then x :: y :: ys else y :: insertSorted x ys

/-- The output directory sorted by file name. -/
def sortFiles : List (String × DataFrame) → List (String × DataFrame)
  | [] => []
  | x :: xs => insertSorted x (sortFiles xs)

/-- The reporter's grand total: every parquet file of the output
directory is re-read (in sorted order) and its row count added. -/
def reporterTotal (fs : List (String × DataFrame)) : Nat :=
  ((sortFiles fs).map (fun f => f.2.nrows)).sum

/-- The observable outcome of one run of `main`. -/
structure MainResult where
  state : PipelineState
  total : Nat
  fileCount : Nat
deriving DecidableEq

/-- The whole `main` function: the per-endpoint loop, the allele
function summary, the recommendation summary, then the reporter. An
uncaught error in the summary write propagates. -/
def mainRun (env : Env) : Except String MainResult :=
  match alleleSummaryStep env (runLoop env) with
  | .error e => .error e
  | .ok st1 =>
    let st2 := recommendationStep st1
    .ok { state := st2, total := reporterTotal st2.files, fileCount := st2.files.length }

example : standardizeName (" Gene Symbol ") = "gene_symbol" := by decide

/-- The labels of a DataFrame together with the length of each column;
all the flattening functions leave this invariant. -/
def colProfile (df : DataFrame) : List (String × Nat) :=
  df.cols.map (fun c => (c.1, c.2.length))

theorem colProfile_flatten_dict (df : DataFrame) (col : String) :
    colProfile (flatten_dict_column df col) = colProfile df := by
  unfold colProfile flatten_dict_column
  split
  · simp only [List.map_map]
    refine List.map_congr_left (fun c _ => ?_)
    by_cases h : c.1 = col
    · simp [Function.comp, h]
    · simp [Function.comp, h]
  · rfl

theorem colProfile_flatten_list (df : DataFrame) (col : String) :
    colProfile (flatten_list_column df col) = colProfile df := by
  unfold colProfile flatten_list_column
  split
  · simp only [List.map_map]
    refine List.map_congr_left (fun c _ => ?_)
    by_cases h : c.1 = col
    · simp [Function.comp, h]
    · simp [Function.comp, h]
  · rfl

theorem nrows_flatten_dict (df : DataFrame) (col : String) :
    (flatten_dict_column df col).nrows = df.nrows := by
  unfold flatten_dict_column
  split <;> rfl

theorem nrows_flatten_list (df : DataFrame) (col : String) :
    (flatten_list_column df col).nrows = df.nrows := by
  unfold flatten_list_column
  split <;> rfl

theorem flattenStep_ok_profile (df df' : DataFrame) (col : String)
    (h : flattenStep df col = .ok df') :
    colProfile df' = colProfile df ∧ df'.nrows = df.nrows := by
  unfold flattenStep at h
  split at h
  · exact Except.noConfusion h
  · next cells heq =>
    by_cases hd : dtypeIsObject cells = true
    · rw [if_pos hd] at h
      split at h <;> cases h <;>
        first
        | exact ⟨rfl, rfl⟩
        | exact ⟨colProfile_flatten_dict .., nrows_flatten_dict ..⟩
        | exact ⟨colProfile_flatten_list .., nrows_flatten_list ..⟩
    · rw [if_neg hd] at h
      cases h
      exact ⟨rfl, rfl⟩

theorem foldlM_flattenStep_profile (L : List String) :
    ∀ df df', List.foldlM flattenStep df L = .ok df' →
      colProfile df' = colProfile df ∧ df'.nrows = df.nrows := by
  induction L with
  | nil =>
    intro df df' h
    cases h
    exact ⟨rfl, rfl⟩
  | cons c L ih =>
    intro df df' h
    rw [List.foldlM_cons] at h
    rcases hs : flattenStep df c with e | df1 <;> rw [hs] at h
    · exact Except.noConfusion h
    · have h0 : List.foldlM flattenStep df1 L = .ok df' := h
      have h1 := flattenStep_ok_profile df df1 c hs
      have h2 := ih df1 df' h0
      exact ⟨h2.1.trans h1.1, h2.2.trans h1.2⟩

theorem normalizeRecords_profile (rs : List Record) (df : DataFrame)
    (h : normalizeRecords rs = .ok df) :
    colProfile df = colProfile (standardizeColumns (pdDataFrame rs)) ∧
      df.nrows = rs.length :=
  ⟨(foldlM_flattenStep_profile _ _ _ h).1,
   (foldlM_flattenStep_profile _ _ _ h).2⟩

/-- The net effect of the flattening loop on one (uniquely labelled)
column, as the code computes it: dtype gate, then the first non-null
sample decides the treatment. -/
def columnTreatmentPy (cells : List JVal) : List JVal :=
  if dtypeIsObject cells then
    match firstNonNull cells with
    | some (.obj _) => cells.map flattenCellDict
    | some (.arr _) => cells.map flattenCellList
    | _ => cells
  else cells

/-- The per-column policy exactly as the specification words it: the
first non-null value determines the treatment of the whole column —
object: JSON-serialize every object cell; list: JSON-serialize every
list cell; otherwise (scalar first sample, or no non-null value at
all): leave every cell unchanged. -/
def columnTreatmentSpec (cells : List JVal) : List JVal :=
  match firstNonNull cells with
  | some (.obj _) => cells.map flattenCellDict
  | some (.arr _) => cells.map flattenCellList
  | _ => cells

/-- The dtype gate is redundant for the result: a column that is not of
dtype `object` is all-numeric/boolean, so its first non-null sample is
scalar and the spec's policy leaves it unchanged anyway. -/
theorem columnTreatmentPy_eq_spec (cells : List JVal) :
    columnTreatmentPy cells = columnTreatmentSpec cells := by
  unfold columnTreatmentPy columnTreatmentSpec
  split
  · rfl
  · next hd =>
    rcases hs : firstNonNull cells with _ | v
    · rfl
    · have hv : v ∈ cells.filter (fun v => !v.isNull) := by
        unfold firstNonNull at hs
        cases hf : List.filter (fun v => !v.isNull) cells <;> rw [hf] at hs
        · cases hs
        · cases hs
          exact List.mem_cons_self _ _
      have hvc : v ∈ cells := (List.mem_filter.mp hv).1
      cases v with
      | obj f =>
        exact absurd (by unfold dtypeIsObject; exact List.any_of_mem hvc rfl) hd
      | arr xs =>
        exact absurd (by unfold dtypeIsObject; exact List.any_of_mem hvc rfl) hd
      | _ => rfl

theorem filter_singleton_of_nodup :
    ∀ (l : List (String × List JVal)), (l.map Prod.fst).Nodup →
      ∀ col cells, (col, cells) ∈ l →
        l.filter (fun c => c.1 == col) = [(col, cells)] := by
  intro l
  induction l with
  | nil => intro _ _ _ h; cases h
  | cons x t ih =>
    intro hnd col cells hm
    rw [List.map_cons, List.nodup_cons] at hnd
    rcases List.mem_cons.mp hm with rfl | hmt
    · rw [List.filter_cons_of_pos (by simp)]
      have : List.filter (fun c => c.1 == col) t = [] := by
        rw [List.filter_eq_nil_iff]
        intro c hc
        simp only [beq_iff_eq]
        intro he
        exact hnd.1 (he ▸ List.mem_map.mpr ⟨c, hc, rfl⟩)
      rw [this]
    · have hx : x.1 ≠ col := by
        intro he
        exact hnd.1 (he ▸ List.mem_map.mpr ⟨(col, cells), hmt, rfl⟩)
      rw [List.filter_cons_of_neg (by simpa using hx)]
      exact ih hnd.2 col cells hmt

/-- A uniquely labelled present column is returned by `df[col]`. -/
theorem getSeries_unique (df : DataFrame) (col : String) (cells : List JVal)
    (hnd : (colNames df).Nodup) (hm : (col, cells) ∈ df.cols) :
    getSeries df col = .ok cells := by
  unfold getSeries
  rw [filter_singleton_of_nodup df.cols hnd col cells hm]

theorem mem_unique_of_nodup (l : List (String × List JVal))
    (hnd : (l.map Prod.fst).Nodup) (col : String) (cells : List JVal)
    (hm : (col, cells) ∈ l) :
    ∀ c ∈ l, c.1 = col → c = (col, cells) := by
  intro c hc he
  have : c ∈ l.filter (fun c => c.1 == col) :=
    List.mem_filter.mpr ⟨hc, by simpa using he⟩
  rw [filter_singleton_of_nodup l hnd col cells hm] at this
  simpa using this

/-- Pointwise congruence for the column-update map: two treatments
agreeing on the (unique) addressed column give the same table. -/
theorem map_update_congr (l : List (String × List JVal)) (col : String) (cells : List JVal)
    (huniq : ∀ c ∈ l, c.1 = col → c = (col, cells))
    (f g : List JVal → List JVal) (hfg : f cells = g cells) :
    l.map (fun c => if c.1 == col then (c.1, f c.2) else c) =
      l.map (fun c => if c.1 == col then (c.1, g c.2) else c) := by
  refine List.map_congr_left fun c hc => ?_
  by_cases he : c.1 = col
  · have hce := huniq c hc he
    rw [hce]
    simp [hfg]
  · simp [he]

/-- The column-update map is the identity when the treatment leaves the
addressed column unchanged. -/
theorem map_update_id (l : List (String × List JVal)) (col : String) (cells : List JVal)
    (huniq : ∀ c ∈ l, c.1 = col → c = (col, cells))
    (hPy : columnTreatmentPy cells = cells) :
    l.map (fun c => if c.1 == col then (c.1, columnTreatmentPy c.2) else c) = l := by
  rw [map_update_congr l col cells huniq columnTreatmentPy (fun x => x) hPy]
  refine (List.map_congr_left fun c hc => ?_).trans (List.map_id l)
  by_cases he : c.1 = col
  · rw [← he]
    simp
  · simp [he]

/-- On a table with unique labels, one loop iteration rewrites exactly
the addressed column with the code's per-column treatment. -/
theorem flattenStep_unique (df : DataFrame) (col : String) (cells : List JVal)
    (hnd : (colNames df).Nodup) (hm : (col, cells) ∈ df.cols) :
    flattenStep df col =
      .ok { df with
            cols := df.cols.map (fun c => if c.1 == col then (c.1, columnTreatmentPy c.2) else c) } := by
  have huniq := mem_unique_of_nodup df.cols hnd col cells hm
  have hcontains : (colNames df).contains col = true :=
    List.elem_iff.mpr (List.mem_map.mpr ⟨(col, cells), hm, rfl⟩)
  unfold flattenStep
  rw [getSeries_unique df col cells hnd hm]
  dsimp only
  by_cases hd : dtypeIsObject cells = true
  · rw [if_pos hd]
    rcases hs : firstNonNull cells with _ | v
    · have hPy : columnTreatmentPy cells = cells := by
        unfold columnTreatmentPy
        rw [if_pos hd, hs]
      rw [map_update_id df.cols col cells huniq hPy]
    · cases v with
      | obj f =>
        have hPy : columnTreatmentPy cells = cells.map flattenCellDict := by
          unfold columnTreatmentPy
          rw [if_pos hd, hs]
        unfold flatten_dict_column
        rw [if_pos hcontains,
          map_update_congr df.cols col cells huniq _ _
            (hPy.symm : cells.map flattenCellDict = columnTreatmentPy cells)]
      | arr xs =>
        have hPy : columnTreatmentPy cells = cells.map flattenCellList := by
          unfold columnTreatmentPy
          rw [if_pos hd, hs]
        unfold flatten_list_column
        rw [if_pos hcontains,
          map_update_congr df.cols col cells huniq _ _
            (hPy.symm : cells.map flattenCellList = columnTreatmentPy cells)]
      | null =>
        have hPy : columnTreatmentPy cells = cells := by
          unfold columnTreatmentPy
          rw [if_pos hd, hs]
        rw [map_update_id df.cols col cells huniq hPy]
      | bool b =>
        have hPy : columnTreatmentPy cells = cells := by
          unfold columnTreatmentPy
          rw [if_pos hd, hs]
        rw [map_update_id df.cols col cells huniq hPy]
      | num n =>
        have hPy : columnTreatmentPy cells = cells := by
          unfold columnTreatmentPy
          rw [if_pos hd, hs]
        rw [map_update_id df.cols col cells huniq hPy]
      | str t =>
        have hPy : columnTreatmentPy cells = cells := by
          unfold columnTreatmentPy
          rw [if_pos hd, hs]
        rw [map_update_id df.cols col cells huniq hPy]
  · rw [if_neg hd]
    have hPy : columnTreatmentPy cells = cells := by
      unfold columnTreatmentPy
      rw [if_neg hd]
    rw [map_update_id df.cols col cells huniq hPy]

theorem colNames_update (l : List (String × List JVal)) (col : String)
    (f : List JVal → List JVal) :
    (l.map (fun c => if c.1 == col then (c.1, f c.2) else c)).map Prod.fst = l.map Prod.fst := by
  rw [List.map_map]
  refine List.map_congr_left fun c hc => ?_
  by_cases he : c.1 = col <;> simp [he]

/-- Running the flattening loop over a duplicate-free label list
rewrites every listed column with the code's per-column treatment. -/
theorem foldlM_flattenStep_nodup :
    ∀ (L : List String) (df : DataFrame),
      (colNames df).Nodup → L.Nodup → (∀ n ∈ L, n ∈ colNames df) →
      List.foldlM flattenStep df L =
        .ok { df with
              cols := df.cols.map (fun c => if L.contains c.1 then (c.1, columnTreatmentPy c.2) else c) } := by
  intro L
  induction L with
  | nil =>
    intro df hnd _ _
    rw [List.foldlM_nil]
    have : df.cols.map (fun c => if ([] : List String).contains c.1 then (c.1, columnTreatmentPy c.2) else c) = df.cols := by
      refine (List.map_congr_left fun c hc => ?_).trans (List.map_id df.cols)
      simp [List.contains]
    rw [this]
    rfl
  | cons a L ih =>
    intro df hnd hLnd hsub
    have hna : a ∉ L := (List.nodup_cons.mp hLnd).1
    obtain ⟨cells, hm⟩ : ∃ cells, (a, cells) ∈ df.cols := by
      obtain ⟨c, hc, he⟩ := List.mem_map.mp (hsub a (List.mem_cons_self a L))
      exact ⟨c.2, by rw [← he]; exact hc⟩
    rw [List.foldlM_cons, flattenStep_unique df a cells hnd hm]
    have hbind :
        (Except.ok { df with cols := df.cols.map (fun c => if c.1 == a then (c.1, columnTreatmentPy c.2) else c) } >>=
          fun df' => List.foldlM flattenStep df' L) =
        List.foldlM flattenStep
          { df with cols := df.cols.map (fun c => if c.1 == a then (c.1, columnTreatmentPy c.2) else c) } L := rfl
    rw [hbind]
    have hnames : colNames { df with cols := df.cols.map (fun c => if c.1 == a then (c.1, columnTreatmentPy c.2) else c) } = colNames df :=
      colNames_update df.cols a columnTreatmentPy
    rw [ih _ (hnames ▸ hnd) (List.nodup_cons.mp hLnd).2
        (fun n hn => hnames ▸ hsub n (List.mem_cons_of_mem a hn))]
    congr 1
    congr 1
    rw [List.map_map]
    refine List.map_congr_left fun c hc => ?_
    have hcontainsL : L.contains a = false :=
      Bool.eq_false_iff.mpr (fun hc2 => hna (List.elem_iff.mp hc2))
    simp only [Function.comp_apply]
    by_cases h1 : c.1 = a
    · have h2 : c.1 ∉ L := by rw [h1]; exact hna
      simp [h1, h2]
      intro hmem
      rw [h1] at h2
      exact absurd hmem h2
    · by_cases h2 : c.1 ∈ L
      · simp [h1, h2]
      · simp [h1, h2]

/-- A label occurring at least twice occurs at least twice among the
filtered columns. -/
theorem two_le_filter_of_not_nodup :
    ∀ (l : List (String × List JVal)), ¬(l.map Prod.fst).Nodup →
      ∃ d, d ∈ l.map Prod.fst ∧ 2 ≤ (l.filter (fun c => c.1 == d)).length := by
  intro l
  induction l with
  | nil => intro h; exact absurd List.nodup_nil h
  | cons x t ih =>
    intro h
    rw [List.map_cons, List.nodup_cons] at h
    by_cases h1 : x.1 ∈ t.map Prod.fst
    · refine ⟨x.1, List.mem_cons_self _ _, ?_⟩
      rw [List.filter_cons_of_pos (by simp)]
      obtain ⟨c, hc, he⟩ := List.mem_map.mp h1
      have : c ∈ t.filter (fun c => c.1 == x.1) := List.mem_filter.mpr ⟨hc, by simpa using he⟩
      have := List.length_pos.mpr (List.ne_nil_of_mem this)
      simp only [List.length_cons]
      omega
    · have h2 : ¬(t.map Prod.fst).Nodup := fun hn => h ⟨h1, hn⟩
      obtain ⟨d, hd, hlen⟩ := ih h2
      refine ⟨d, List.mem_cons_of_mem _ hd, ?_⟩
      rcases hx : (fun c => c.1 == d) x with _ | _
      · rwa [List.filter_cons_of_neg (by simp [hx])]
      · rw [List.filter_cons_of_pos (by simp [hx])]
        simp only [List.length_cons]
        omega

theorem length_filter_name (l : List (String × List JVal)) (d : String) :
    (l.filter (fun c => c.1 == d)).length = ((l.map Prod.fst).filter (fun n => n == d)).length := by
  induction l with
  | nil => rfl
  | cons x t ih =>
    by_cases hx : x.1 = d
    · rw [List.filter_cons_of_pos (by simpa using hx), List.map_cons,
        List.filter_cons_of_pos (by simpa using hx)]
      simpa using ih
    · rw [List.filter_cons_of_neg (by simpa using hx), List.map_cons,
        List.filter_cons_of_neg (by simpa using hx)]
      exact ih

/-- With a duplicated label present among the processed columns, the
flattening loop raises (the pandas `AttributeError`). -/
theorem foldlM_flattenStep_error :
    ∀ (L : List String) (df : DataFrame),
      (∃ d, d ∈ L ∧ 2 ≤ (df.cols.filter (fun c => c.1 == d)).length) →
      ∃ e, List.foldlM flattenStep df L = .error e := by
  intro L
  induction L with
  | nil =>
    intro df ⟨d, hd, _⟩
    cases hd
  | cons a L ih =>
    intro df ⟨d, hd, hlen⟩
    by_cases ha : 2 ≤ (df.cols.filter (fun c => c.1 == a)).length
    · have herr : getSeries df a = .error ("AttributeError: dtype") := by
        unfold getSeries
        rcases hf : df.cols.filter (fun c => c.1 == a) with _ | ⟨x, _ | ⟨y, t⟩⟩
        · rw [hf] at ha; simp at ha
        · rw [hf] at ha; simp at ha
        · rw [hf]
      have hstep : flattenStep df a = .error ("AttributeError: dtype") := by
        unfold flattenStep
        rw [herr]
      exact ⟨_, by rw [List.foldlM_cons, hstep]; rfl⟩
    · have hdL : d ∈ L := by
        rcases List.mem_cons.mp hd with rfl | h
        · exact absurd hlen ha
        · exact h
      rcases hs : flattenStep df a with e | df1
      · exact ⟨e, by rw [List.foldlM_cons, hs]; rfl⟩
      · have hprof := (flattenStep_ok_profile df df1 a hs).1
        have hnames : colNames df1 = colNames df := by
          have : (colProfile df1).map Prod.fst = (colProfile df).map Prod.fst := by rw [hprof]
          simpa [colProfile, colNames, List.map_map] using this
        have hlen1 : 2 ≤ (df1.cols.filter (fun c => c.1 == d)).length := by
          have hnames2 : df1.cols.map Prod.fst = df.cols.map Prod.fst := hnames
          rw [length_filter_name, hnames2, ← length_filter_name]
          exact hlen
        obtain ⟨e, he⟩ := ih df1 ⟨d, hdL, hlen1⟩
        exact ⟨e, by rw [List.foldlM_cons, hs]; exact he⟩

theorem flattenColumns_ok_nodup (df df' : DataFrame)
    (h : flattenColumns df = .ok df') : (colNames df).Nodup := by
  by_contra hnd
  obtain ⟨d, hd, hlen⟩ := two_le_filter_of_not_nodup df.cols hnd
  obtain ⟨e, he⟩ := foldlM_flattenStep_error (colNames df) df ⟨d, hd, hlen⟩
  unfold flattenColumns at h
  rw [he] at h
  exact Except.noConfusion h

/-- When the flattening loop completes, it has rewritten every column
with the code's per-column treatment. -/
theorem flattenColumns_ok_eq (df df' : DataFrame)
    (h : flattenColumns df = .ok df') :
    df' = { df with cols := df.cols.map (fun c => (c.1, columnTreatmentPy c.2)) } := by
  have hnd := flattenColumns_ok_nodup df df' h
  unfold flattenColumns at h
  rw [foldlM_flattenStep_nodup (colNames df) df hnd hnd (fun n hn => hn)] at h
  have he := (Except.ok.injEq _ _).mp h
  rw [← he]
  congr 1
  refine List.map_congr_left fun c hc => ?_
  have : (colNames df).contains c.1 = true :=
    List.elem_iff.mpr (List.mem_map.mpr ⟨c, hc, rfl⟩)
  rw [if_pos this]

/-- The normalized table, when produced, is the renamed raw table with
every column rewritten by the per-column treatment. -/
theorem normalizeRecords_ok_eq (rs : List Record) (df : DataFrame)
    (h : normalizeRecords rs = .ok df) :
    df = { standardizeColumns (pdDataFrame rs) with
           cols := (standardizeColumns (pdDataFrame rs)).cols.map
             (fun c => (c.1, columnTreatmentPy c.2)) } :=
  flattenColumns_ok_eq _ df h

theorem colNames_standardize_pd (rs : List Record) :
    colNames (standardizeColumns (pdDataFrame rs)) = (unionKeys rs).map standardizeName := by
  unfold colNames standardizeColumns pdDataFrame
  simp [List.map_map]

theorem colNames_normalize (rs : List Record) (df : DataFrame)
    (h : normalizeRecords rs = .ok df) :
    colNames df = (unionKeys rs).map standardizeName := by
  rw [normalizeRecords_ok_eq rs df h]
  unfold colNames
  rw [List.map_map, ← colNames_standardize_pd rs]
  unfold colNames
  exact List.map_congr_left fun c hc => rfl

theorem toNat_ofNat_of_valid (n : Nat) (h : n.isValidChar) : (Char.ofNat n).toNat = n := by
  rw [Char.ofNat, dif_pos h]
  rfl

/-- ASCII upper-case letters. -/
def isUpperAscii (c : Char) : Bool := 65 ≤ c.toNat && c.toNat ≤ 90

theorem isUpperAscii_toLower (c : Char) : isUpperAscii (c.toLower) = false := by
  by_cases hc : 65 ≤ c.toNat ∧ c.toNat ≤ 90
  · have hv : (c.toNat + 32).isValidChar := Or.inl (by omega)
    have h1 : c.toLower = Char.ofNat (c.toNat + 32) := by
      simp only [Char.toLower, ge_iff_le]
      rw [if_pos hc]
    rw [h1]
    simp only [isUpperAscii, toNat_ofNat_of_valid _ hv, Bool.and_eq_false_iff,
      decide_eq_false_iff_not, not_le]
    omega
  · have h1 : c.toLower = c := by
      simp only [Char.toLower, ge_iff_le]
      rw [if_neg hc]
    rw [h1]
    simp only [isUpperAscii, Bool.and_eq_false_iff, decide_eq_false_iff_not, not_le]
    omega

/-- Every character of a standardized column name is lower case and is
neither a space nor a hyphen. -/
theorem standardizeName_chars (s : String) :
    ∀ c ∈ (standardizeName s).data, isUpperAscii c = false ∧ c ≠ ' ' ∧ c ≠ '-' := by
  intro c hc
  have hc2 : c ∈ pyReplaceChar '-' '_' (pyReplaceChar ' ' '_' (pyLower (pyStrip s.data))) := hc
  unfold pyReplaceChar at hc2
  obtain ⟨b, hb, hbc⟩ := List.mem_map.mp hc2
  obtain ⟨a, ha, hab⟩ := List.mem_map.mp hb
  obtain ⟨z, hz, hza⟩ := List.mem_map.mp ha
  have hbU : isUpperAscii b = false ∧ b ≠ ' ' := by
    rw [← hab]
    by_cases haz : a = ' '
    · rw [if_pos haz]
      exact ⟨by decide, by decide⟩
    · rw [if_neg haz]
      exact ⟨by rw [← hza]; exact isUpperAscii_toLower z, haz⟩
  rw [← hbc]
  by_cases hbd : b = '-'
  · rw [if_pos hbd]
    exact ⟨by decide, by decide, by decide⟩
  · rw [if_neg hbd]
    exact ⟨hbU.1, hbU.2, hbd⟩

theorem mem_cols_length_pd (rs : List Record) (c : String × List JVal)
    (hc : c ∈ (standardizeColumns (pdDataFrame rs)).cols) :
    c.2.length = rs.length := by
  unfold standardizeColumns pdDataFrame at hc
  simp only [List.map_map, List.mem_map] at hc
  obtain ⟨k, _, rfl⟩ := hc
  simp

/-- Normalization preserves the record count: the table is `rs.length`
rows tall and every column holds `rs.length` cells. -/
theorem normalizeRecords_rowCount (rs : List Record) (df : DataFrame)
    (h : normalizeRecords rs = .ok df) :
    df.nrows = rs.length ∧ ∀ c ∈ df.cols, c.2.length = rs.length := by
  obtain ⟨hp, hn⟩ := normalizeRecords_profile rs df h
  refine ⟨hn, fun c hc => ?_⟩
  have : (c.1, c.2.length) ∈ colProfile df := by
    unfold colProfile
    exact List.mem_map.mpr ⟨c, hc, rfl⟩
  rw [hp] at this
  unfold colProfile at this
  obtain ⟨c0, hc0, he⟩ := List.mem_map.mp this
  have hl := mem_cols_length_pd rs c0 hc0
  injection he with h1 h2
  omega
example : dumps (.obj (.cons ("x") (.num 1) .nil)) = "\x7b\"x\": 1\x7d" := by decide
example : normalizeRecords [[(("a b"), .num 1), (("c"), .obj (.cons ("x") (.num 1) .nil))]] =
    .ok ⟨1, [("a_b", [.num 1]), ("c", [.str ("\x7b\"x\": 1\x7d")])]⟩ := by decide
example : normalizeRecords [[(("a b"), .num 1), (("a-b"), .num 2)]] =
    .error ("AttributeError: dtype") := by decide

/-- Claim C2: for every normalized table and every column of it, the
first non-null value of the column (before flattening) determines the
treatment of the whole column — if it is an object, every object cell
is replaced by its JSON-text serialization (`flattenCellDict`); if it
is a list, every list cell is so replaced (`flattenCellList`); if it is
a scalar (or the column has no non-null value), no cell is changed,
even when later cells are objects or lists (`columnTreatmentSpec` is
word-for-word that policy). -/
theorem claim_c2_first_sample_policy (rs : List Record) (df : DataFrame)
    (h : normalizeRecords rs = .ok df) :
    df.nrows = (standardizeColumns (pdDataFrame rs)).nrows ∧
    df.cols = (standardizeColumns (pdDataFrame rs)).cols.map
      (fun c => (c.1, columnTreatmentSpec c.2)) := by
  rw [normalizeRecords_ok_eq rs df h]
  exact ⟨rfl, List.map_congr_left fun c hc => by rw [columnTreatmentPy_eq_spec]⟩

/-- A mixed column whose first sample is scalar: the later object cell
is (deliberately) not flattened. -/
def rsC2 : List Record :=
  [[(("a"), JVal.num 1)], [(("a"), JVal.obj (.cons ("x") (.num 2) .nil))]]

def dfC2 : DataFrame :=
  ⟨2, [("a", [JVal.num 1, JVal.obj (.cons ("x") (.num 2) .nil)])]⟩

theorem claim_c2_witness :
    normalizeRecords rsC2 = .ok dfC2 ∧
      (dfC2.nrows = (standardizeColumns (pdDataFrame rsC2)).nrows ∧
       dfC2.cols = (standardizeColumns (pdDataFrame rsC2)).cols.map
         (fun c => (c.1, columnTreatmentSpec c.2))) :=
  ⟨by decide, claim_c2_first_sample_policy rsC2 dfC2 (by decide)⟩

/-- Claim C4: every column name of a normalized table is the
corresponding source key passed through strip/lower/replace, and hence
contains no upper-case ASCII letter, no space and no hyphen. -/
theorem claim_c4_column_renaming (rs : List Record) (df : DataFrame)
    (h : normalizeRecords rs = .ok df) :
    colNames df = (unionKeys rs).map standardizeName ∧
    ∀ n ∈ colNames df, ∀ c ∈ n.data, isUpperAscii c = false ∧ c ≠ ' ' ∧ c ≠ '-' := by
  refine ⟨colNames_normalize rs df h, fun n hn c hc => ?_⟩
  rw [colNames_normalize rs df h] at hn
  obtain ⟨k, hk, rfl⟩ := List.mem_map.mp hn
  exact standardizeName_chars k c hc

def rsC4 : List Record :=
  [[((" Gene Symbol "), JVal.str ("CYP2D6")), (("hgnc-id"), JVal.num 5)]]

theorem claim_c4_witness :
    normalizeRecords rsC4 =
      .ok ⟨1, [("gene_symbol", [JVal.str ("CYP2D6")]), ("hgnc_id", [JVal.num 5])]⟩ ∧
    (colNames ⟨1, [("gene_symbol", [JVal.str ("CYP2D6")]), ("hgnc_id", [JVal.num 5])]⟩ =
        (unionKeys rsC4).map standardizeName ∧
      ∀ n ∈ colNames ⟨1, [("gene_symbol", [JVal.str ("CYP2D6")]), ("hgnc_id", [JVal.num 5])]⟩,
        ∀ c ∈ n.data, isUpperAscii c = false ∧ c ≠ ' ' ∧ c ≠ '-') :=
  ⟨by decide, claim_c4_column_renaming rsC4 _ (by decide)⟩

/-- Claim C5: every normalized table the Normalizer actually produces
has pairwise distinct column names. (For records whose distinct keys
collide after renaming no table is produced at all: the duplicated
label makes `df[col].dtype` raise an `AttributeError`, so normalization
errors out and the endpoint is skipped — see
`collision_normalization_errors` and the `foldlM_flattenStep_error`
lemma.) -/
theorem claim_c5_unique_names (rs : List Record) (df : DataFrame)
    (h : normalizeRecords rs = .ok df) : (colNames df).Nodup := by
  have hnd := flattenColumns_ok_nodup _ df h
  have he : colNames df = colNames (standardizeColumns (pdDataFrame rs)) := by
    rw [colNames_normalize rs df h, colNames_standardize_pd]
  rw [he]
  exact hnd

def rsC5 : List Record :=
  [[(("id"), JVal.num 1), (("name"), JVal.str ("x")), (("Allele Type"), JVal.null)]]

def dfC5 : DataFrame :=
  ⟨1, [("id", [JVal.num 1]), ("name", [JVal.str ("x")]), ("allele_type", [JVal.null])]⟩

theorem claim_c5_witness :
    normalizeRecords rsC5 = .ok dfC5 ∧ (colNames dfC5).Nodup :=
  ⟨by decide, claim_c5_unique_names rsC5 dfC5 (by decide)⟩

/-- Companion fact to C5: records whose distinct keys collide after
renaming (here a space and a hyphen in the same position) produce no
table at all — the duplicated label `a_b` makes `df[col].dtype` raise,
normalization errors out, and the per-endpoint handler skips the
endpoint. -/
theorem collision_normalization_errors :
    normalizeRecords [[(("a b"), JVal.num 1), (("a-b"), JVal.num 2)]] =
      .error ("AttributeError: dtype") := by decide

theorem filterMap_cons_toList {α β : Type} (f : α → Option β) (a : α) (l : List α) :
    List.filterMap f (a :: l) = (f a).toList ++ List.filterMap f l := by
  cases h : f a <;> simp [h]

theorem isEmpty_false_of_ne_nil {α : Type} {l : List α} (h : l ≠ []) : l.isEmpty = false := by
  cases l with
  | nil => exact absurd rfl h
  | cons x t => rfl

/-- Each loop iteration appends exactly the endpoint's `dataframes`
entry and its output file (when produced). -/
theorem processEndpoint_char (env : Env) (st : PipelineState) (ne : String × String) :
    (processEndpoint env st ne).dataframes = st.dataframes ++ (dfEntry env ne).toList ∧
    (processEndpoint env st ne).files = st.files ++ (fileEntry env ne).toList := by
  unfold processEndpoint dfEntry fileEntry
  rcases hf : env.fetch ne.2 with e | data <;> dsimp only
  · simp
  · by_cases hne : data.isEmpty = true
    · rw [if_pos hne, if_pos hne, if_pos hne]
      simp
    · rw [if_neg hne, if_neg hne, if_neg hne]
      rcases hn : normalizeRecords data with e | df <;> dsimp only
      · simp
      · by_cases hw : env.writeOk (endpointFile ne.1) = true
        · rw [if_pos hw, if_pos hw]
          simp
        · rw [if_neg hw, if_neg hw]
          simp

theorem foldl_processEndpoint_char (env : Env) :
    ∀ (L : List (String × String)) (st : PipelineState),
      (L.foldl (processEndpoint env) st).dataframes = st.dataframes ++ L.filterMap (dfEntry env) ∧
      (L.foldl (processEndpoint env) st).files = st.files ++ L.filterMap (fileEntry env) := by
  intro L
  induction L with
  | nil => intro st; simp
  | cons ne L ih =>
    intro st
    rw [List.foldl_cons]
    obtain ⟨hd, hf⟩ := processEndpoint_char env st ne
    obtain ⟨ihd, ihf⟩ := ih (processEndpoint env st ne)
    rw [filterMap_cons_toList, filterMap_cons_toList]
    exact ⟨by rw [ihd, hd, List.append_assoc], by rw [ihf, hf, List.append_assoc]⟩

theorem runLoop_dataframes (env : Env) :
    (runLoop env).dataframes = endpoints.filterMap (dfEntry env) :=
  (foldl_processEndpoint_char env endpoints ⟨[], [], []⟩).1

theorem runLoop_files (env : Env) :
    (runLoop env).files = endpoints.filterMap (fileEntry env) :=
  (foldl_processEndpoint_char env endpoints ⟨[], [], []⟩).2

theorem dfEntry_key (env : Env) (ne : String × String) (p : String × DataFrame)
    (h : dfEntry env ne = some p) : p.1 = ne.1 := by
  unfold dfEntry at h
  rcases hf : env.fetch ne.2 with e | data <;> rw [hf] at h <;> dsimp only at h
  · cases h
  · by_cases hne : data.isEmpty = true
    · rw [if_pos hne] at h
      cases h
    · rw [if_neg hne] at h
      rcases hn : normalizeRecords data with e | df <;> rw [hn] at h <;> dsimp only at h
      · cases h
      · cases h
        rfl

theorem fileEntry_key (env : Env) (ne : String × String) (p : String × DataFrame)
    (h : fileEntry env ne = some p) : p.1 = endpointFile ne.1 := by
  unfold fileEntry at h
  rcases hf : env.fetch ne.2 with e | data <;> rw [hf] at h <;> dsimp only at h
  · cases h
  · by_cases hne : data.isEmpty = true
    · rw [if_pos hne] at h
      cases h
    · rw [if_neg hne] at h
      rcases hn : normalizeRecords data with e | df <;> rw [hn] at h <;> dsimp only at h
      · cases h
      · by_cases hw : env.writeOk (endpointFile ne.1) = true
        · rw [if_pos hw] at h
          cases h
          rfl
        · rw [if_neg hw] at h
          cases h

theorem dfEntry_some_of (env : Env) (ne : String × String) (data : List Record)
    (df : DataFrame) (hf : env.fetch ne.2 = .ok data) (hne : data ≠ [])
    (hn : normalizeRecords data = .ok df) : dfEntry env ne = some (ne.1, df) := by
  unfold dfEntry
  rw [hf]
  dsimp only
  rw [if_neg (by rw [isEmpty_false_of_ne_nil hne]; exact Bool.false_ne_true), hn]

theorem fileEntry_some_of (env : Env) (ne : String × String) (data : List Record)
    (df : DataFrame) (hf : env.fetch ne.2 = .ok data) (hne : data ≠ [])
    (hn : normalizeRecords data = .ok df)
    (hw : env.writeOk (endpointFile ne.1) = true) :
    fileEntry env ne = some (endpointFile ne.1, df) := by
  unfold fileEntry
  rw [hf]
  dsimp only
  rw [if_neg (by rw [isEmpty_false_of_ne_nil hne]; exact Bool.false_ne_true), hn]
  dsimp only
  rw [if_pos hw]

theorem dfEntry_none_of_fetch_error (env : Env) (ne : String × String) (e : String)
    (hf : env.fetch ne.2 = .error e) : dfEntry env ne = none := by
  unfold dfEntry
  rw [hf]

theorem fileEntry_none_of_fetch_error (env : Env) (ne : String × String) (e : String)
    (hf : env.fetch ne.2 = .error e) : fileEntry env ne = none := by
  unfold fileEntry
  rw [hf]

theorem dfEntry_none_of_norm_error (env : Env) (ne : String × String)
    (data : List Record) (e : String) (hf : env.fetch ne.2 = .ok data)
    (hn : normalizeRecords data = .error e) : dfEntry env ne = none := by
  unfold dfEntry
  rw [hf]
  dsimp only
  by_cases hne : data.isEmpty = true
  · rw [if_pos hne]
  · rw [if_neg hne, hn]

theorem fileEntry_none_of_write_error (env : Env) (ne : String × String)
    (hw : env.writeOk (endpointFile ne.1) = false) : fileEntry env ne = none := by
  unfold fileEntry
  rcases hf : env.fetch ne.2 with e | data
  · rfl
  · dsimp only
    by_cases hne : data.isEmpty = true
    · rw [if_pos hne]
    · rw [if_neg hne]
      rcases hn : normalizeRecords data with e | df
      · rfl
      · dsimp only
        rw [if_neg (by rw [hw]; exact Bool.false_ne_true)]

/-- Claim C1: for an endpoint whose fetch succeeds with a non-empty
list of `N` records (and whose normalization and write go through —
that is what "the parquet file written" presupposes), the written
table is the normalized one and it has exactly `N` rows: its `nrows`
is `N` and every column holds `N` cells — no record is filtered out or
duplicated between decoding and writing. -/
theorem claim_c1_row_preservation (env : Env) (ne : String × String)
    (data : List Record) (df : DataFrame) (hmem : ne ∈ endpoints)
    (hf : env.fetch ne.2 = .ok data) (hne : data ≠ [])
    (hn : normalizeRecords data = .ok df)
    (hw : env.writeOk (endpointFile ne.1) = true) :
    (endpointFile ne.1, df) ∈ (runLoop env).files ∧
    df.nrows = data.length ∧ ∀ c ∈ df.cols, c.2.length = data.length := by
  obtain ⟨h1, h2⟩ := normalizeRecords_rowCount data df hn
  refine ⟨?_, h1, h2⟩
  rw [runLoop_files]
  exact List.mem_filterMap.mpr ⟨ne, hmem, fileEntry_some_of env ne data df hf hne hn hw⟩

def envC1 : Env :=
  { fetch := fun e => if e == "gene" then .ok [[(("Gene Symbol"), JVal.str ("CYP2D6")), (("chr"), JVal.str ("22"))]] else .error ("HTTP 500"),
    writeOk := fun _ => true }

def dfC1 : DataFrame :=
  ⟨1, [("gene_symbol", [JVal.str ("CYP2D6")]), ("chr", [JVal.str ("22")])]⟩

def recC1 : List Record := [[(("Gene Symbol"), JVal.str ("CYP2D6")), (("chr"), JVal.str ("22"))]]

theorem claim_c1_witness :
    (envC1.fetch ("gene") = .ok recC1 ∧ recC1 ≠ [] ∧
      normalizeRecords recC1 = .ok dfC1 ∧ envC1.writeOk (endpointFile ("gene")) = true) ∧
    ((endpointFile ("gene"), dfC1) ∈ (runLoop envC1).files ∧
      dfC1.nrows = recC1.length ∧ ∀ c ∈ dfC1.cols, c.2.length = recC1.length) :=
  ⟨⟨by decide, by decide, by decide, by decide⟩,
    claim_c1_row_preservation envC1 ("gene", "gene") recC1 dfC1 (by decide) (by decide)
      (by decide) (by decide) (by decide)⟩

theorem recommendationStep_preserves (st : PipelineState) :
    (recommendationStep st).files = st.files ∧
    (recommendationStep st).dataframes = st.dataframes := by
  unfold recommendationStep
  cases List.lookup ("recommendation") st.dataframes <;> exact ⟨rfl, rfl⟩

/-- Claim C9: the recommendation summary block writes no file — the
file list (and the `dataframes` mapping) after the block equal those
before it, and the block at most appends one log line. -/
theorem claim_c9_recommendation_no_write (st : PipelineState) :
    (recommendationStep st).files = st.files ∧
    (recommendationStep st).dataframes = st.dataframes ∧
    ((recommendationStep st).logs = st.logs ∨
      ∃ l, (recommendationStep st).logs = st.logs ++ [l]) := by
  unfold recommendationStep
  cases List.lookup ("recommendation") st.dataframes with
  | none => exact ⟨rfl, rfl, Or.inl rfl⟩
  | some rdf => exact ⟨rfl, rfl, Or.inr ⟨_, rfl⟩⟩

theorem flattenCellDict_idem (v : JVal) :
    flattenCellDict (flattenCellDict v) = flattenCellDict v := by
  cases v <;> rfl

theorem flattenCellList_idem (v : JVal) :
    flattenCellList (flattenCellList v) = flattenCellList v := by
  cases v <;> rfl

theorem flatten_dict_column_idem (df : DataFrame) (col : String) :
    flatten_dict_column (flatten_dict_column df col) col = flatten_dict_column df col := by
  by_cases hc : (colNames df).contains col = true
  · unfold flatten_dict_column
    rw [if_pos hc]
    have hn2 : colNames ⟨df.nrows, df.cols.map (fun c => if c.1 == col then (c.1, c.2.map flattenCellDict) else c)⟩ = colNames df :=
      colNames_update df.cols col _
    rw [hn2, if_pos hc]
    congr 1
    rw [List.map_map]
    refine List.map_congr_left fun c hc2 => ?_
    by_cases h : c.1 = col <;> simp [h, Function.comp, flattenCellDict_idem]
  · have h0 : flatten_dict_column df col = df := by
      unfold flatten_dict_column
      rw [if_neg (by rw [Bool.eq_false_iff.mpr hc]; exact Bool.false_ne_true)]
    rw [h0, h0]

theorem flatten_list_column_idem (df : DataFrame) (col : String) :
    flatten_list_column (flatten_list_column df col) col = flatten_list_column df col := by
  by_cases hc : (colNames df).contains col = true
  · unfold flatten_list_column
    rw [if_pos hc]
    have hn2 : colNames ⟨df.nrows, df.cols.map (fun c => if c.1 == col then (c.1, c.2.map flattenCellList) else c)⟩ = colNames df :=
      colNames_update df.cols col _
    rw [hn2, if_pos hc]
    congr 1
    rw [List.map_map]
    refine List.map_congr_left fun c hc2 => ?_
    by_cases h : c.1 = col <;> simp [h, Function.comp, flattenCellList_idem]
  · have h0 : flatten_list_column df col = df := by
      unfold flatten_list_column
      rw [if_neg (by rw [Bool.eq_false_iff.mpr hc]; exact Bool.false_ne_true)]
    rw [h0, h0]

/-- Claim C10: `flatten_dict_column` and `flatten_list_column` are
idempotent (a serialized cell is a string, never a dict or a list, so a
second pass changes nothing), and an absent column name leaves the
table unchanged. -/
theorem claim_c10_flatten_idempotent (df : DataFrame) (col : String) :
    flatten_dict_column (flatten_dict_column df col) col = flatten_dict_column df col ∧
    flatten_list_column (flatten_list_column df col) col = flatten_list_column df col ∧
    ((colNames df).contains col = false →
      flatten_dict_column df col = df ∧ flatten_list_column df col = df) := by
  refine ⟨flatten_dict_column_idem df col, flatten_list_column_idem df col, fun hc => ?_⟩
  constructor
  · unfold flatten_dict_column
    rw [if_neg (by rw [hc]; exact Bool.false_ne_true)]
  · unfold flatten_list_column
    rw [if_neg (by rw [hc]; exact Bool.false_ne_true)]

def dfC10 : DataFrame :=
  ⟨1, [("a", [JVal.obj (.cons ("x") (.num 1) .nil)]), ("b", [JVal.arr (.cons (.num 2) .nil)])]⟩

theorem claim_c10_witness :
    (colNames dfC10).contains ("zz") = false ∧
    (flatten_dict_column (flatten_dict_column dfC10 ("a")) ("a") = flatten_dict_column dfC10 ("a") ∧
      flatten_list_column (flatten_list_column dfC10 ("b")) ("b") = flatten_list_column dfC10 ("b") ∧
      flatten_dict_column dfC10 ("zz") = dfC10 ∧ flatten_list_column dfC10 ("zz") = dfC10) :=
  ⟨by decide,
    (claim_c10_flatten_idempotent dfC10 ("a")).1,
    (claim_c10_flatten_idempotent dfC10 ("b")).2.1,
    ((claim_c10_flatten_idempotent dfC10 ("zz")).2.2 (by decide)).1,
    ((claim_c10_flatten_idempotent dfC10 ("zz")).2.2 (by decide)).2⟩

theorem sum_insertSorted (x : String × DataFrame) (l : List (String × DataFrame)) :
    (((insertSorted x l).map (fun f => f.2.nrows)).sum : Nat) =
      x.2.nrows + ((l.map (fun f => f.2.nrows)).sum : Nat) := by
  induction l with
  | nil => simp [insertSorted]
  | cons y t ih =>
    unfold insertSorted
    by_cases h : strLe x.1 y.1 = true
    · rw [if_pos h]
      simp
    · rw [if_neg h]
      simp only [List.map_cons, List.sum_cons, ih]
      omega

theorem sum_sortFiles (l : List (String × DataFrame)) :
    (((sortFiles l).map (fun f => f.2.nrows)).sum : Nat) =
      ((l.map (fun f => f.2.nrows)).sum : Nat) := by
  induction l with
  | nil => rfl
  | cons x t ih =>
    unfold sortFiles
    rw [sum_insertSorted, ih]
    simp

/-- The reporter's grand total is the sum of the row counts of the
files actually present in the output directory. -/
theorem reporterTotal_eq (fs : List (String × DataFrame)) :
    reporterTotal fs = ((fs.map (fun f => f.2.nrows)).sum : Nat) :=
  sum_sortFiles fs

theorem string_data_inj {a b : String} (h : a.data = b.data) : a = b := by
  obtain ⟨da⟩ := a
  obtain ⟨db⟩ := b
  cases h
  rfl

theorem endpointFile_inj (a b : String) (h : endpointFile a = endpointFile b) : a = b := by
  unfold endpointFile at h
  have h2 := congrArg String.data h
  rw [String.data_append, String.data_append, String.data_append, String.data_append] at h2
  exact string_data_inj (List.append_cancel_left (List.append_cancel_right h2))

theorem alleleSummaryStep_files (env : Env) (st st1 : PipelineState)
    (h : alleleSummaryStep env st = .ok st1) :
    st1.dataframes = st.dataframes ∧
    (st1.files = st.files ∨
      ∃ adf, List.lookup ("allele") st.dataframes = some adf ∧
        st1.files = st.files ++ [("cpic_allele_functions.parquet",
          selectColumns adf (key_cols.filter (fun c => (colNames adf).contains c)))]) := by
  unfold alleleSummaryStep at h
  rcases hl : List.lookup ("allele") st.dataframes with _ | adf <;> rw [hl] at h <;> dsimp only at h
  · cases h
    exact ⟨rfl, Or.inl rfl⟩
  · by_cases hw : env.writeOk ("cpic_allele_functions.parquet") = true
    · rw [if_pos hw] at h
      cases h
      exact ⟨rfl, Or.inr ⟨adf, rfl, rfl⟩⟩
    · rw [if_neg hw] at h
      cases h

theorem mainRun_ok_parts (env : Env) (res : MainResult) (h : mainRun env = .ok res) :
    ∃ st1, alleleSummaryStep env (runLoop env) = .ok st1 ∧
      res.state.files = st1.files ∧ res.state.dataframes = st1.dataframes ∧
      res.total = reporterTotal st1.files := by
  unfold mainRun at h
  rcases ha : alleleSummaryStep env (runLoop env) with e | st1 <;> rw [ha] at h <;> dsimp only at h
  · cases h
  · cases h
    refine ⟨st1, rfl, (recommendationStep_preserves st1).1, (recommendationStep_preserves st1).2, ?_⟩
    rw [(recommendationStep_preserves st1).1]

/-- Claim C7: when the `drug` fetch raises an HTTP error (and writes
succeed), every other endpoint with a successful non-empty fetch still
has its output file in the final directory, no `cpic_drug.parquet` is
present, and the reported total is the sum of the row counts of the
files actually written. -/
theorem claim_c7_drug_failure_isolated (env : Env) (e : String) (res : MainResult)
    (hdrug : env.fetch ("drug") = .error e)
    (hw : ∀ f, env.writeOk f = true)
    (hm : mainRun env = .ok res) :
    (∀ ne ∈ endpoints, ∀ data df, env.fetch ne.2 = .ok data → data ≠ [] →
        normalizeRecords data = .ok df → (endpointFile ne.1, df) ∈ res.state.files) ∧
    endpointFile ("drug") ∉ res.state.files.map Prod.fst ∧
    res.total = ((res.state.files.map (fun f => f.2.nrows)).sum : Nat) := by
  obtain ⟨st1, ha, hfiles, hdfs, htot⟩ := mainRun_ok_parts env res hm
  obtain ⟨hdfs1, hcase⟩ := alleleSummaryStep_files env _ st1 ha
  have hloopmem : ∀ p ∈ (runLoop env).files, p ∈ st1.files := by
    intro p hp
    rcases hcase with h | ⟨adf, _, hfs⟩
    · rw [h]
      exact hp
    · rw [hfs]
      exact List.mem_append_left _ hp
  refine ⟨?_, ?_, ?_⟩
  · intro ne hne data df hf hne2 hn
    rw [hfiles]
    refine hloopmem _ ?_
    rw [runLoop_files]
    exact List.mem_filterMap.mpr ⟨ne, hne, fileEntry_some_of env ne data df hf hne2 hn (hw _)⟩
  · rw [hfiles]
    intro hmem
    obtain ⟨p, hp, hpe⟩ := List.mem_map.mp hmem
    have hploop : p ∈ (runLoop env).files ∨ p.1 = "cpic_allele_functions.parquet" := by
      rcases hcase with h | ⟨adf, _, hfs⟩
      · rw [h] at hp
        exact Or.inl hp
      · rw [hfs] at hp
        rcases List.mem_append.mp hp with h2 | h2
        · exact Or.inl h2
        · right
          rw [List.mem_singleton.mp h2]
    rcases hploop with hp2 | hp2
    · rw [runLoop_files] at hp2
      obtain ⟨ne, hne, hfe⟩ := List.mem_filterMap.mp hp2
      have hkey := fileEntry_key env ne p hfe
      have : ne.1 = "drug" := endpointFile_inj _ _ (by rw [← hkey, hpe])
      have hne2 : ne.2 = "drug" := by
        simp only [endpoints, List.mem_cons] at hne
        rcases hne with rfl | rfl | rfl | rfl | rfl | rfl | rfl | h2 <;>
          first
          | (exact absurd this (by decide))
          | rfl
          | cases h2
      rw [fileEntry_none_of_fetch_error env ne e (by rw [hne2]; exact hdrug)] at hfe
      cases hfe
    · rw [hp2] at hpe
      exact absurd hpe (by decide)
  · rw [htot, reporterTotal_eq, hfiles]

def envC7 : Env :=
  { fetch := fun e => if e == "gene" then .ok [[(("symbol"), JVal.str ("CYP2D6"))]] else .error ("HTTP 500"),
    writeOk := fun _ => true }

def resC7 : MainResult :=
  match mainRun envC7 with
  | .ok r => r
  | .error _ => ⟨⟨[], [], []⟩, 0, 0⟩

theorem claim_c7_witness :
    (envC7.fetch ("drug") = .error ("HTTP 500") ∧ (∀ f, envC7.writeOk f = true) ∧
      mainRun envC7 = .ok resC7) ∧
    ((∀ ne ∈ endpoints, ∀ data df, envC7.fetch ne.2 = .ok data → data ≠ [] →
        normalizeRecords data = .ok df → (endpointFile ne.1, df) ∈ resC7.state.files) ∧
      endpointFile ("drug") ∉ resC7.state.files.map Prod.fst ∧
      resC7.total = ((resC7.state.files.map (fun f => f.2.nrows)).sum : Nat)) :=
  ⟨⟨by decide, fun f => rfl, by decide⟩,
    claim_c7_drug_failure_isolated envC7 ("HTTP 500") resC7 (by decide) (fun f => rfl) (by decide)⟩

theorem lookup_skip_entries (f : String × String → Option (String × DataFrame))
    (hkey : ∀ ne p, f ne = some p → p.1 = ne.1) :
    ∀ (L : List (String × String)) (k : String) (rest : List (String × DataFrame)),
      (∀ ne ∈ L, ne.1 ≠ k) →
      List.lookup k (L.filterMap f ++ rest) = List.lookup k rest := by
  intro L
  induction L with
  | nil => intro k rest h; rfl
  | cons ne L ih =>
    intro k rest h
    rw [filterMap_cons_toList, List.append_assoc]
    cases hf : f ne with
    | none => exact ih k rest (fun x hx => h x (List.mem_cons_of_mem _ hx))
    | some p =>
      have hp := hkey ne p hf
      obtain ⟨pk, pdf⟩ := p
      have hne : (k == pk) = false := by
        simp only [beq_eq_false_iff_ne, ne_eq]
        intro he
        exact h ne (List.mem_cons_self _ _) (by rw [← hp, ← he])
      simp only [Option.toList, List.cons_append, List.nil_append, List.lookup, hne]
      exact ih k rest (fun x hx => h x (List.mem_cons_of_mem _ hx))

/-- Looking up an endpoint name in the loop's `dataframes` dict finds
exactly that endpoint's entry (when produced). -/
theorem lookup_runLoop (env : Env) (ne : String × String)
    (pre post : List (String × String))
    (hsplit : endpoints = pre ++ ne :: post)
    (hpre : ∀ x ∈ pre, x.1 ≠ ne.1) (hpost : ∀ x ∈ post, x.1 ≠ ne.1) :
    List.lookup ne.1 (runLoop env).dataframes = (dfEntry env ne).map Prod.snd := by
  rw [runLoop_dataframes, hsplit, List.filterMap_append,
    lookup_skip_entries (dfEntry env) (dfEntry_key env) pre ne.1 _ hpre,
    filterMap_cons_toList]
  cases hd : dfEntry env ne with
  | none =>
    simp only [Option.toList, List.nil_append, Option.map_none']
    have := lookup_skip_entries (dfEntry env) (dfEntry_key env) post ne.1 [] hpost
    rw [List.append_nil] at this
    rw [this]
    rfl
  | some p =>
    have hp := dfEntry_key env ne p hd
    obtain ⟨pk, pdf⟩ := p
    have hke : (ne.1 == pk) = true := by
      simp only [beq_iff_eq]
      exact hp.symm
    simp only [Option.toList, List.cons_append, List.lookup, hke, Option.map_some']

/-- Counterexample to claim C8 as stated: when the parquet write for
`allele` fails, the endpoint's entry is nevertheless present in the
`dataframes` mapping (it is inserted before `to_parquet` runs), so the
allele summary step does run — and here, its own write also failing,
the run even crashes. -/
def envC8 : Env :=
  { fetch := fun e => if e == "allele" then .ok [[(("id"), JVal.num 1)]] else .error ("HTTP 500"),
    writeOk := fun _ => false }

theorem claim_c8_counterexample :
    envC8.writeOk (endpointFile ("allele")) = false ∧
    List.lookup ("allele") (runLoop envC8).dataframes = some ⟨1, [("id", [JVal.num 1])]⟩ ∧
    mainRun envC8 = .error ("write failed: cpic_allele_functions.parquet") :=
  ⟨rfl, by decide, by decide⟩

/-- Claim C8 (amended): an endpoint's entry in the name-to-table
mapping is exactly `dfEntry`; a fetch error or a normalization error
leaves no entry, but a `to_parquet` error occurs after the entry was
inserted, so the endpoint keeps its mapping entry (and the later
summary steps see it) while its output file is absent. -/
theorem claim_c8_amended_entry_policy (env : Env) (ne : String × String)
    (hmem : ne ∈ endpoints) :
    List.lookup ne.1 (runLoop env).dataframes = (dfEntry env ne).map Prod.snd ∧
    (∀ e, env.fetch ne.2 = .error e → List.lookup ne.1 (runLoop env).dataframes = none) ∧
    (∀ data e, env.fetch ne.2 = .ok data → normalizeRecords data = .error e →
      List.lookup ne.1 (runLoop env).dataframes = none) ∧
    (∀ data df, env.fetch ne.2 = .ok data → data ≠ [] → normalizeRecords data = .ok df →
      env.writeOk (endpointFile ne.1) = false →
      List.lookup ne.1 (runLoop env).dataframes = some df ∧
      endpointFile ne.1 ∉ (runLoop env).files.map Prod.fst) := by
  have hlook : List.lookup ne.1 (runLoop env).dataframes = (dfEntry env ne).map Prod.snd := by
    simp only [endpoints, List.mem_cons, List.not_mem_nil, or_false] at hmem
    rcases hmem with rfl | rfl | rfl | rfl | rfl | rfl | rfl
    · exact lookup_runLoop env _ []
        [("allele","allele"),("drug","drug"),("guideline","guideline"),("recommendation","recommendation"),("diplotype","diplotype"),("pair","pair")]
        rfl (by decide) (by decide)
    · exact lookup_runLoop env _ [("gene","gene")]
        [("drug","drug"),("guideline","guideline"),("recommendation","recommendation"),("diplotype","diplotype"),("pair","pair")]
        rfl (by decide) (by decide)
    · exact lookup_runLoop env _ [("gene","gene"),("allele","allele")]
        [("guideline","guideline"),("recommendation","recommendation"),("diplotype","diplotype"),("pair","pair")]
        rfl (by decide) (by decide)
    · exact lookup_runLoop env _ [("gene","gene"),("allele","allele"),("drug","drug")]
        [("recommendation","recommendation"),("diplotype","diplotype"),("pair","pair")]
        rfl (by decide) (by decide)
    · exact lookup_runLoop env _ [("gene","gene"),("allele","allele"),("drug","drug"),("guideline","guideline")]
        [("diplotype","diplotype"),("pair","pair")]
        rfl (by decide) (by decide)
    · exact lookup_runLoop env _ [("gene","gene"),("allele","allele"),("drug","drug"),("guideline","guideline"),("recommendation","recommendation")]
        [("pair","pair")]
        rfl (by decide) (by decide)
    · exact lookup_runLoop env _ [("gene","gene"),("allele","allele"),("drug","drug"),("guideline","guideline"),("recommendation","recommendation"),("diplotype","diplotype")]
        [] rfl (by decide) (by decide)
  refine ⟨hlook, ?_, ?_, ?_⟩
  · intro e hf
    rw [hlook, dfEntry_none_of_fetch_error env ne e hf]
    rfl
  · intro data e hf hn
    rw [hlook, dfEntry_none_of_norm_error env ne data e hf hn]
    rfl
  · intro data df hf hne2 hn hw
    refine ⟨by rw [hlook, dfEntry_some_of env ne data df hf hne2 hn]; rfl, ?_⟩
    rw [runLoop_files]
    intro hmem2
    obtain ⟨p, hp, hpe⟩ := List.mem_map.mp hmem2
    obtain ⟨ne2, hne3, hfe⟩ := List.mem_filterMap.mp hp
    have hkey := fileEntry_key env ne2 p hfe
    have hname : ne2.1 = ne.1 := endpointFile_inj _ _ (by rw [← hkey, hpe])
    rw [fileEntry_none_of_write_error env ne2 (by rw [hname]; exact hw)] at hfe
    cases hfe

theorem claim_c8_amended_witness :
    ((envC8.fetch ("allele") = .ok [[(("id"), JVal.num 1)]] ∧
        normalizeRecords [[(("id"), JVal.num 1)]] = .ok ⟨1, [("id", [JVal.num 1])]⟩ ∧
        envC8.writeOk (endpointFile ("allele")) = false) ∧
      (List.lookup ("allele") (runLoop envC8).dataframes = some ⟨1, [("id", [JVal.num 1])]⟩ ∧
        endpointFile ("allele") ∉ (runLoop envC8).files.map Prod.fst)) ∧
    (∀ e, envC8.fetch ("gene") = .error e →
      List.lookup ("gene") (runLoop envC8).dataframes = none) :=
  ⟨⟨⟨by decide, by decide, rfl⟩,
    (claim_c8_amended_entry_policy envC8 ("allele","allele") (by decide)).2.2.2
      [[(("id"), JVal.num 1)]] ⟨1, [("id", [JVal.num 1])]⟩ (by decide) (by decide) (by decide) rfl⟩,
    fun e he => (claim_c8_amended_entry_policy envC8 ("gene","gene") (by decide)).2.1 e he⟩

theorem selectColumns_names (adf : DataFrame) :
    ∀ (names : List String), (∀ n ∈ names, n ∈ colNames adf) →
      (selectColumns adf names).cols.map Prod.fst = names := by
  intro names
  induction names with
  | nil => intro _; rfl
  | cons n t ih =>
    intro h
    show ((n :: t).filterMap
        (fun n => (adf.cols.find? (fun c => c.1 == n)).map (fun c => (n, c.2)))).map Prod.fst = n :: t
    rw [filterMap_cons_toList]
    obtain ⟨c, hc, hce⟩ := List.mem_map.mp (h n (List.mem_cons_self n t))
    rcases hf : adf.cols.find? (fun c => c.1 == n) with _ | c0
    · exact absurd (by simpa using hce) (List.find?_eq_none.mp hf c hc)
    · rw [hf]
      simp only [Option.map_some', Option.toList, List.cons_append, List.nil_append,
        List.map_cons]
      exact congrArg (List.cons n) (ih (fun m hm => h m (List.mem_cons_of_mem _ hm)))

theorem selectColumns_mem (adf : DataFrame) (names : List String)
    (col : String × List JVal) (hm : col ∈ (selectColumns adf names).cols) :
    ∃ c0 ∈ adf.cols, col.2 = c0.2 := by
  obtain ⟨n, hn, he⟩ := List.mem_filterMap.mp hm
  rcases hf : adf.cols.find? (fun c => c.1 == n) with _ | c0 <;> rw [hf] at he
  · cases he
  · refine ⟨c0, List.mem_of_find?_eq_some hf, ?_⟩
    cases he
    rfl

/-- Claim C6: whenever the allele endpoint succeeds (and the run
completes), the `cpic_allele_functions` file holds exactly the
projection of the allele table onto the intersection — in the fixed
`key_cols` order — of the key columns with the allele table's columns,
and it has as many rows as the allele table (one per fetched
record). -/
theorem claim_c6_allele_summary (env : Env) (data : List Record) (adf : DataFrame)
    (res : MainResult)
    (hf : env.fetch ("allele") = .ok data) (hne : data ≠ [])
    (hn : normalizeRecords data = .ok adf)
    (hm : mainRun env = .ok res) :
    ("cpic_allele_functions.parquet",
        selectColumns adf (key_cols.filter (fun c => (colNames adf).contains c))) ∈ res.state.files ∧
    (selectColumns adf (key_cols.filter (fun c => (colNames adf).contains c))).cols.map Prod.fst =
      key_cols.filter (fun c => (colNames adf).contains c) ∧
    (selectColumns adf (key_cols.filter (fun c => (colNames adf).contains c))).nrows = adf.nrows ∧
    adf.nrows = data.length ∧
    ∀ c ∈ (selectColumns adf (key_cols.filter (fun c => (colNames adf).contains c))).cols,
      c.2.length = data.length := by
  have hlook : List.lookup ("allele") (runLoop env).dataframes = some adf := by
    rw [lookup_runLoop env ("allele","allele") [("gene","gene")]
      [("drug","drug"),("guideline","guideline"),("recommendation","recommendation"),("diplotype","diplotype"),("pair","pair")]
      rfl (by decide) (by decide),
      dfEntry_some_of env ("allele","allele") data adf hf hne hn]
    rfl
  obtain ⟨st1, ha, hfiles, _, _⟩ := mainRun_ok_parts env res hm
  have hsummem : ("cpic_allele_functions.parquet",
      selectColumns adf (key_cols.filter (fun c => (colNames adf).contains c))) ∈ st1.files := by
    unfold alleleSummaryStep at ha
    rw [hlook] at ha
    dsimp only at ha
    by_cases hw : env.writeOk ("cpic_allele_functions.parquet") = true
    · rw [if_pos hw] at ha
      cases ha
      exact List.mem_append_right _ (List.mem_singleton.mpr rfl)
    · rw [if_neg hw] at ha
      cases ha
  obtain ⟨h1, h2⟩ := normalizeRecords_rowCount data adf hn
  refine ⟨by rw [hfiles]; exact hsummem, ?_, rfl, h1, ?_⟩
  · refine selectColumns_names adf _ (fun n hn2 => ?_)
    exact List.elem_iff.mp (List.mem_filter.mp hn2).2
  · intro c hc
    obtain ⟨c0, hc0, he⟩ := selectColumns_mem adf _ c hc
    rw [he]
    exact h2 c0 hc0

def envC6 : Env :=
  { fetch := fun e => if e == "allele" then
      .ok [[(("id"), JVal.num 7), (("name"), JVal.str ("*1")), (("other"), JVal.num 2)]]
      else .error ("HTTP 500"),
    writeOk := fun _ => true }

def recC6 : List Record :=
  [[(("id"), JVal.num 7), (("name"), JVal.str ("*1")), (("other"), JVal.num 2)]]

def adfC6 : DataFrame :=
  ⟨1, [("id", [JVal.num 7]), ("name", [JVal.str ("*1")]), ("other", [JVal.num 2])]⟩

def resC6 : MainResult :=
  match mainRun envC6 with
  | .ok r => r
  | .error _ => ⟨⟨[], [], []⟩, 0, 0⟩

theorem claim_c6_witness :
    (envC6.fetch ("allele") = .ok recC6 ∧ recC6 ≠ [] ∧
      normalizeRecords recC6 = .ok adfC6 ∧ mainRun envC6 = .ok resC6) ∧
    (("cpic_allele_functions.parquet",
        selectColumns adfC6 (key_cols.filter (fun c => (colNames adfC6).contains c))) ∈ resC6.state.files ∧
      (selectColumns adfC6 (key_cols.filter (fun c => (colNames adfC6).contains c))).cols.map Prod.fst =
        key_cols.filter (fun c => (colNames adfC6).contains c) ∧
      (selectColumns adfC6 (key_cols.filter (fun c => (colNames adfC6).contains c))).nrows = adfC6.nrows ∧
      adfC6.nrows = recC6.length ∧
      ∀ c ∈ (selectColumns adfC6 (key_cols.filter (fun c => (colNames adfC6).contains c))).cols,
        c.2.length = recC6.length) :=
  ⟨⟨by decide, by decide, by decide, by decide⟩,
    claim_c6_allele_summary envC6 recC6 adfC6 resC6 (by decide) (by decide) (by decide) (by decide)⟩

/-- Decimal digit characters. -/
def isDig (c : Char) : Bool := 48 ≤ c.toNat && c.toNat ≤ 57

/-- Numeric value of a digit character. -/
def digVal (c : Char) : Nat := c.toNat - 48

/-- Value of a digit string. -/
def digitsToNat (ds : List Char) : Nat := ds.foldl (fun a c => a * 10 + digVal c) 0

/-- Parse a run of decimal digits. -/
def parseNat (cs : List Char) : Option (Nat × List Char) :=
  let ds := cs.takeWhile isDig
  if ds.isEmpty then none else some (digitsToNat ds, cs.dropWhile isDig)

/-- The JSON string escapes understood by the parser. -/
def unescapeChar : Char → Option Char
  | '"' => some '"'
  | '\\' => some '\\'
  | 'n' => some '\n'
  | 't' => some '\t'
  | 'r' => some '\r'
  | _ => none

/-- Parse the remainder of a JSON string literal (after the opening
quote) up to its closing quote. -/
def parseStrChars : List Char → Option (List Char × List Char)
  | [] => none
  | c :: rest =>
    if c = '"' then some ([], rest)
    else if c = '\\' then
      match rest with
      | [] => none
      | e :: rest2 =>
        match unescapeChar e with
        | none => none
        | some u =>
          match parseStrChars rest2 with
          | none => none
          | some p => some (u :: p.1, p.2)
    else
      match parseStrChars rest with
      | none => none
      | some p => some (c :: p.1, p.2)

example : parseStrChars (escapeStr ("a\"b".data) ++ '"' :: []) = some (("a\"b").data, []) := by decide

theorem digitChar_isDig (d : Nat) : isDig (digitChar d) = true := by
  unfold digitChar
  split <;> decide

theorem digitChar_val (d : Nat) (h : d < 10) : digVal (digitChar d) = d := by
  interval_cases d <;> decide

theorem natToCharsAux_digits (fuel : Nat) :
    ∀ n, n < fuel →
      natToCharsAux fuel n ≠ [] ∧ ∀ c ∈ natToCharsAux fuel n, isDig c = true := by
  induction fuel with
  | zero => intro n h; omega
  | succ fuel ih =>
    intro n h
    unfold natToCharsAux
    by_cases h10 : n < 10
    · rw [if_pos h10]
      refine ⟨by simp, fun c hc => ?_⟩
      rw [List.mem_singleton.mp hc]
      exact digitChar_isDig n
    · rw [if_neg h10]
      have hlt : n / 10 < fuel := by
        have := Nat.div_lt_self (by omega : 0 < n) (by omega : 1 < 10)
        omega
      obtain ⟨hne, hall⟩ := ih (n / 10) hlt
      refine ⟨by simp [hne], fun c hc => ?_⟩
      rcases List.mem_append.mp hc with h2 | h2
      · exact hall c h2
      · rw [List.mem_singleton.mp h2]
        exact digitChar_isDig _

theorem foldl_digits (fuel : Nat) :
    ∀ n, n < fuel → ∀ a,
      List.foldl (fun a c => a * 10 + digVal c) a (natToCharsAux fuel n) =
        a * 10 ^ (natToCharsAux fuel n).length + n := by
  induction fuel with
  | zero => intro n h; omega
  | succ fuel ih =>
    intro n h a
    unfold natToCharsAux
    by_cases h10 : n < 10
    · rw [if_pos h10]
      simp only [List.foldl_cons, List.foldl_nil, List.length_singleton, pow_one]
      rw [digitChar_val n h10]
    · rw [if_neg h10]
      have hlt : n / 10 < fuel := by
        have := Nat.div_lt_self (by omega : 0 < n) (by omega : 1 < 10)
        omega
      rw [List.foldl_append, ih (n / 10) hlt a]
      simp only [List.foldl_cons, List.foldl_nil, List.length_append,
        List.length_singleton]
      rw [digitChar_val (n % 10) (Nat.mod_lt n (by omega))]
      have hdm := Nat.div_add_mod n 10
      rw [pow_succ]
      ring_nf
      omega

theorem takeWhile_append_all {p : Char → Bool} :
    ∀ (xs ys : List Char), (∀ x ∈ xs, p x = true) →
      (xs ++ ys).takeWhile p = xs ++ ys.takeWhile p ∧
      (xs ++ ys).dropWhile p = ys.dropWhile p := by
  intro xs
  induction xs with
  | nil => intro ys _; exact ⟨rfl, rfl⟩
  | cons x t ih =>
    intro ys h
    have hx := h x (List.mem_cons_self x t)
    obtain ⟨h1, h2⟩ := ih ys (fun m hm => h m (List.mem_cons_of_mem _ hm))
    constructor
    · rw [List.cons_append, List.takeWhile_cons, hx]
      simp only [List.cons_append]
      rw [h1]
      simp
    · rw [List.cons_append, List.dropWhile_cons, hx]
      simp only [if_true]
      exact h2

/-- The parser's continuation must not begin with a digit (true of
every continuation the serializer produces after a number). -/
def headNotDig (r : List Char) : Prop := ∀ c, r.head? = some c → isDig c = false

theorem parseNat_natToChars (n : Nat) (r : List Char) (hr : headNotDig r) :
    parseNat (natToChars n ++ r) = some (n, r) := by
  obtain ⟨hne, hall⟩ := natToCharsAux_digits (n+1) n (by omega)
  obtain ⟨ht, hd⟩ := takeWhile_append_all (natToChars n) r hall
  have hrt : r.takeWhile isDig = [] := by
    cases r with
    | nil => rfl
    | cons c t =>
      rw [List.takeWhile_cons, hr c rfl]
      simp
  have hrd : r.dropWhile isDig = r := by
    cases r with
    | nil => rfl
    | cons c t =>
      rw [List.dropWhile_cons, hr c rfl]
      simp
  unfold parseNat
  rw [ht, hrt, List.append_nil]
  rw [if_neg (by simp only [List.isEmpty_eq_true]; exact hne)]
  rw [hd, hrd]
  unfold digitsToNat natToChars
  rw [foldl_digits (n+1) n (by omega) 0]
  simp

theorem escapeStr_cons (c : Char) (cs : List Char) :
    escapeStr (c :: cs) = escChar c ++ escapeStr cs := by
  unfold escapeStr
  rw [List.map_cons, List.flatten_cons]

/-- Parsing a serialized string literal recovers it exactly. -/
theorem parseStr_roundtrip : ∀ (s : List Char) (r : List Char),
    parseStrChars (escapeStr s ++ '"' :: r) = some (s, r) := by
  intro s
  induction s with
  | nil =>
    intro r
    show parseStrChars ('"' :: r) = some ([], r)
    unfold parseStrChars
    rw [if_pos rfl]
  | cons c cs ih =>
    intro r
    rw [escapeStr_cons, List.append_assoc]
    unfold escChar
    by_cases h1 : c = '"'
    · rw [if_pos h1, h1]
      show parseStrChars ('\\' :: '"' :: (escapeStr cs ++ '"' :: r)) = some ('"' :: cs, r)
      unfold parseStrChars
      rw [if_neg (by decide), if_pos rfl]
      simp only [unescapeChar, ih r]
    · rw [if_neg h1]
      by_cases h2 : c = '\\'
      · rw [if_pos h2, h2]
        show parseStrChars ('\\' :: '\\' :: (escapeStr cs ++ '"' :: r)) = some ('\\' :: cs, r)
        unfold parseStrChars
        rw [if_neg (by decide), if_pos rfl]
        simp only [unescapeChar, ih r]
      · rw [if_neg h2]
        by_cases h3 : c = '\n'
        · rw [if_pos h3, h3]
          show parseStrChars ('\\' :: 'n' :: (escapeStr cs ++ '"' :: r)) = some ('\n' :: cs, r)
          unfold parseStrChars
          rw [if_neg (by decide), if_pos rfl]
          simp only [unescapeChar, ih r]
        · rw [if_neg h3]
          by_cases h4 : c = '\t'
          · rw [if_pos h4, h4]
            show parseStrChars ('\\' :: 't' :: (escapeStr cs ++ '"' :: r)) = some ('\t' :: cs, r)
            unfold parseStrChars
            rw [if_neg (by decide), if_pos rfl]
            simp only [unescapeChar, ih r]
          · rw [if_neg h4]
            by_cases h5 : c = '\r'
            · rw [if_pos h5, h5]
              show parseStrChars ('\\' :: 'r' :: (escapeStr cs ++ '"' :: r)) = some ('\r' :: cs, r)
              unfold parseStrChars
              rw [if_neg (by decide), if_pos rfl]
              simp only [unescapeChar, ih r]
            · rw [if_neg h5]
              show parseStrChars (c :: (escapeStr cs ++ '"' :: r)) = some (c :: cs, r)
              unfold parseStrChars
              rw [if_neg h1, if_neg h2]
              simp only [ih r]

mutual
/-- Fuel measure for the parser: enough fuel to parse a serialized
value. -/
def jsize : JVal → Nat
  | .null => 1
  | .bool _ => 1
  | .num _ => 1
  | .str _ => 1
  | .arr xs => 1 + jsizeL xs
  | .obj ps => 1 + jsizeO ps
termination_by structural v => v
def jsizeL : JList → Nat
  | .nil => 0
  | .cons x xs => 1 + jsize x + jsizeL xs
termination_by structural xs => xs
def jsizeO : JObj → Nat
  | .nil => 0
  | .cons _ v ps => 1 + jsize v + jsizeO ps
termination_by structural ps => ps
end

theorem jsize_pos (v : JVal) : 1 ≤ jsize v := by
  cases v <;> simp [jsize]

mutual
/-- Recursive-descent parser for the canonical output of `serialize`
(JSON with `", "` and `": "` separators), with explicit fuel. -/
def parseVal : Nat → List Char → Option (JVal × List Char)
  | 0, _ => none
  | fuel+1, cs =>
    match cs with
    | [] => none
    | c :: rest =>
      if c = 'n' then
        match rest with
        | 'u' :: 'l' :: 'l' :: r => some (.null, r)
        | _ => none
      else if c = 't' then
        match rest with
        | 'r' :: 'u' :: 'e' :: r => some (.bool true, r)
        | _ => none
      else if c = 'f' then
        match rest with
        | 'a' :: 'l' :: 's' :: 'e' :: r => some (.bool false, r)
        | _ => none
      else if c = '"' then
        match parseStrChars rest with
        | none => none
        | some p => some (.str (String.mk p.1), p.2)
      else if c = '-' then
        match parseNat rest with
        | none => none
        | some p => some (.num (-(p.1 : Int)), p.2)
      else if c = '[' then
        if rest.head? = some ']' then some (.arr .nil, rest.tail)
        else
          match parseVal fuel rest with
          | none => none
          | some (v, r1) =>
            match parseItems fuel r1 with
            | none => none
            | some (vs, r2) => some (.arr (.cons v vs), r2)
      else if c = '\x7b' then
        if rest.head? = some '\x7d' then some (.obj .nil, rest.tail)
        else
          match rest with
          | '"' :: rk =>
            match parseStrChars rk with
            | none => none
            | some kp =>
              match kp.2 with
              | ':' :: ' ' :: r2 =>
                match parseVal fuel r2 with
                | none => none
                | some (v, r3) =>
                  match parseMembers fuel r3 with
                  | none => none
                  | some (ps, r4) => some (.obj (.cons (String.mk kp.1) v ps), r4)
              | _ => none
          | _ => none
      else if isDig c then
        match parseNat (c :: rest) with
        | none => none
        | some p => some (.num (p.1 : Int), p.2)
      else none
/-- Parse the items of an array after the first one, up to `]`. -/
def parseItems : Nat → List Char → Option (JList × List Char)
  | 0, _ => none
  | fuel+1, cs =>
    match cs with
    | ']' :: r => some (.nil, r)
    | ',' :: ' ' :: r =>
      match parseVal fuel r with
      | none => none
      | some (v, r1) =>
        match parseItems fuel r1 with
        | none => none
        | some (vs, r2) => some (.cons v vs, r2)
    | _ => none
/-- Parse the members of an object after the first one, up to the
closing brace. -/
def parseMembers : Nat → List Char → Option (JObj × List Char)
  | 0, _ => none
  | fuel+1, cs =>
    match cs with
    | '\x7d' :: r => some (.nil, r)
    | ',' :: ' ' :: '"' :: rk =>
      match parseStrChars rk with
      | none => none
      | some kp =>
        match kp.2 with
        | ':' :: ' ' :: r2 =>
          match parseVal fuel r2 with
          | none => none
          | some (v, r3) =>
            match parseMembers fuel r3 with
            | none => none
            | some (ps, r4) => some (.cons (String.mk kp.1) v ps, r4)
        | _ => none
    | _ => none
end

/-- The Python expression `json.loads(s)` on the canonical text
`json.dumps` emits: parse with ample fuel and require the whole input
to be consumed. -/
def parseJson (s : String) : Option JVal :=
  match parseVal (s.data.length + 1) s.data with
  | some (v, []) => some v
  | _ => none

example : parseJson ("\x7b\"x\": [1, -2, null]\x7d") =
    some (.obj (.cons ("x") (.arr (.cons (.num 1) (.cons (.num (-2)) (.cons .null .nil)))) .nil)) := by
  decide

theorem natToChars_head (n : Nat) :
    ∃ d ds, natToChars n = d :: ds ∧ isDig d = true := by
  obtain ⟨hne, hall⟩ := natToCharsAux_digits (n+1) n (by omega)
  cases hh : natToChars n with
  | nil => exact absurd hh hne
  | cons d ds =>
    refine ⟨d, ds, rfl, hall d ?_⟩
    rw [show natToCharsAux (n+1) n = natToChars n from rfl, hh]
    exact List.mem_cons_self d ds

theorem isDig_ne_special (c : Char) (h : isDig c = true) :
    c ≠ 'n' ∧ c ≠ 't' ∧ c ≠ 'f' ∧ c ≠ '"' ∧ c ≠ '-' ∧ c ≠ '[' ∧ c ≠ '\x7b' ∧
    c ≠ ']' ∧ c ≠ '\x7d' := by
  refine ⟨?_, ?_, ?_, ?_, ?_, ?_, ?_, ?_, ?_⟩ <;>
    exact fun he => absurd (he ▸ h) (by decide)

/-- The first character of any serialized value. -/
theorem serialize_head (v : JVal) :
    ∃ c cs, serialize v = c :: cs ∧
      (c = 'n' ∨ c = 't' ∨ c = 'f' ∨ c = '"' ∨ c = '-' ∨ c = '[' ∨ c = '\x7b' ∨
        isDig c = true) := by
  cases v with
  | null => exact ⟨'n', _, rfl, Or.inl rfl⟩
  | bool b => cases b
              · exact ⟨'f', _, rfl, Or.inr (Or.inr (Or.inl rfl))⟩
              · exact ⟨'t', _, rfl, Or.inr (Or.inl rfl)⟩
  | num n =>
    show ∃ c cs, intToChars n = c :: cs ∧ _
    unfold intToChars
    by_cases hneg : n < 0
    · rw [if_pos hneg]
      exact ⟨'-', _, rfl, by simp⟩
    · rw [if_neg hneg]
      obtain ⟨d, ds, hd, hdig⟩ := natToChars_head n.natAbs
      exact ⟨d, ds, hd, Or.inr (Or.inr (Or.inr (Or.inr (Or.inr (Or.inr (Or.inr hdig))))))⟩
  | str s => exact ⟨'"', _, rfl, by simp⟩
  | arr xs =>
    cases xs with
    | nil => exact ⟨'[', _, rfl, by simp⟩
    | cons x t => exact ⟨'[', _, rfl, by simp⟩
  | obj ps =>
    cases ps with
    | nil => exact ⟨'\x7b', _, rfl, by simp⟩
    | cons k v t => exact ⟨'\x7b', _, rfl, by simp⟩

theorem serialize_head_ne_rbracket (x : JVal) (K : List Char) :
    ¬((serialize x ++ K).head? = some ']') := by
  obtain ⟨c, cs, hc, hset⟩ := serialize_head x
  rw [hc, List.cons_append, List.head?_cons]
  intro he
  have hce : c = ']' := by
    injection he with he2
  rcases hset with rfl | rfl | rfl | rfl | rfl | rfl | rfl | hdig
  all_goals first
    | exact absurd hce (by decide)
    | exact absurd hce (isDig_ne_special c hdig).2.2.2.2.2.2.2.1

theorem headNotDig_items (xs : JList) (r : List Char) :
    headNotDig (serializeItems xs ++ ']' :: r) := by
  cases xs with
  | nil =>
    intro c hc
    simp only [serializeItems, List.nil_append, List.head?_cons, Option.some.injEq] at hc
    rw [← hc]
    decide
  | cons x t =>
    intro c hc
    simp only [serializeItems, List.cons_append, List.head?_cons, Option.some.injEq] at hc
    rw [← hc]
    decide

theorem headNotDig_members (ps : JObj) (r : List Char) :
    headNotDig (serializeMembers ps ++ '\x7d' :: r) := by
  cases ps with
  | nil =>
    intro c hc
    simp only [serializeMembers, List.nil_append, List.head?_cons, Option.some.injEq] at hc
    rw [← hc]
    decide
  | cons k v t =>
    intro c hc
    simp only [serializeMembers, List.cons_append, List.head?_cons, Option.some.injEq] at hc
    rw [← hc]
    decide

theorem parseVal_quote (fuel : Nat) (rest : List Char) :
    parseVal (fuel+1) ('"' :: rest) =
      match parseStrChars rest with
      | none => none
      | some p => some (.str (String.mk p.1), p.2) := rfl

theorem parseVal_minus (fuel : Nat) (rest : List Char) :
    parseVal (fuel+1) ('-' :: rest) =
      match parseNat rest with
      | none => none
      | some p => some (.num (-(p.1 : Int)), p.2) := rfl

theorem parseVal_lbracket (fuel : Nat) (rest : List Char) :
    parseVal (fuel+1) ('[' :: rest) =
      if rest.head? = some ']' then some (.arr .nil, rest.tail)
      else
        match parseVal fuel rest with
        | none => none
        | some (v, r1) =>
          match parseItems fuel r1 with
          | none => none
          | some (vs, r2) => some (.arr (.cons v vs), r2) := rfl

theorem parseVal_lbrace_member (fuel : Nat) (rk : List Char) :
    parseVal (fuel+1) ('\x7b' :: '"' :: rk) =
      match parseStrChars rk with
      | none => none
      | some kp =>
        match kp.2 with
        | ':' :: ' ' :: r2 =>
          match parseVal fuel r2 with
          | none => none
          | some (v, r3) =>
            match parseMembers fuel r3 with
            | none => none
            | some (ps, r4) => some (.obj (.cons (String.mk kp.1) v ps), r4)
        | _ => none := rfl

theorem parseVal_digit (fuel : Nat) (c : Char) (rest : List Char) (h : isDig c = true) :
    parseVal (fuel+1) (c :: rest) =
      match parseNat (c :: rest) with
      | none => none
      | some p => some (.num (p.1 : Int), p.2) := by
  obtain ⟨h1, h2, h3, h4, h5, h6, h7, _, _⟩ := isDig_ne_special c h
  simp only [parseVal]
  rw [if_neg h1, if_neg h2, if_neg h3, if_neg h4, if_neg h5, if_neg h6, if_neg h7, if_pos h]

theorem parseItems_comma (fuel : Nat) (rest : List Char) :
    parseItems (fuel+1) (',' :: ' ' :: rest) =
      match parseVal fuel rest with
      | none => none
      | some (v, r1) =>
        match parseItems fuel r1 with
        | none => none
        | some (vs, r2) => some (.cons v vs, r2) := rfl

theorem parseMembers_comma (fuel : Nat) (rk : List Char) :
    parseMembers (fuel+1) (',' :: ' ' :: '"' :: rk) =
      match parseStrChars rk with
      | none => none
      | some kp =>
        match kp.2 with
        | ':' :: ' ' :: r2 =>
          match parseVal fuel r2 with
          | none => none
          | some (v, r3) =>
            match parseMembers fuel r3 with
            | none => none
            | some (ps, r4) => some (.cons (String.mk kp.1) v ps, r4)
        | _ => none := rfl

/-- Round trip: the parser inverts the serializer (simultaneously for
values, array tails and object tails, by induction on fuel). -/
theorem parse_serialize_all : ∀ fuel : Nat,
    (∀ v r, jsize v ≤ fuel → headNotDig r →
      parseVal fuel (serialize v ++ r) = some (v, r)) ∧
    (∀ xs r, jsizeL xs < fuel →
      parseItems fuel (serializeItems xs ++ ']' :: r) = some (xs, r)) ∧
    (∀ ps r, jsizeO ps < fuel →
      parseMembers fuel (serializeMembers ps ++ '\x7d' :: r) = some (ps, r)) := by
  intro fuel
  induction fuel with
  | zero =>
    refine ⟨fun v r h _ => absurd h (by have := jsize_pos v; omega),
      fun xs r h => absurd h (by omega),
      fun ps r h => absurd h (by omega)⟩
  | succ fuel ih =>
    obtain ⟨ih1, ih2, ih3⟩ := ih
    refine ⟨?_, ?_, ?_⟩
    · intro v r hsz hr
      cases v with
      | null => rfl
      | bool b => cases b <;> rfl
      | num n =>
        show parseVal (fuel+1) (intToChars n ++ r) = some (.num n, r)
        by_cases hneg : n < 0
        · unfold intToChars
          rw [if_pos hneg, List.cons_append, parseVal_minus,
            parseNat_natToChars n.natAbs r hr]
          dsimp only
          have he : -((n.natAbs : Int)) = n := by omega
          rw [he]
        · unfold intToChars
          rw [if_neg hneg]
          obtain ⟨d, ds, hdds, hdig⟩ := natToChars_head n.natAbs
          rw [hdds, List.cons_append, parseVal_digit fuel d (ds ++ r) hdig,
            ← List.cons_append, ← hdds, parseNat_natToChars n.natAbs r hr]
          dsimp only
          have he : ((n.natAbs : Int)) = n := by omega
          rw [he]
      | str s =>
        show parseVal (fuel+1) (('"' :: (escapeStr s.data ++ ['"'])) ++ r) = some (.str s, r)
        rw [List.cons_append, List.append_assoc, List.singleton_append,
          parseVal_quote, parseStr_roundtrip s.data r]
      | arr xs =>
        cases xs with
        | nil => rfl
        | cons x t =>
          show parseVal (fuel+1)
              (('[' :: (serialize x ++ serializeItems t ++ [']'])) ++ r) =
            some (.arr (.cons x t), r)
          rw [List.cons_append, List.append_assoc, List.append_assoc,
            List.singleton_append, parseVal_lbracket,
            if_neg (serialize_head_ne_rbracket x _)]
          have hx : jsize x ≤ fuel := by
            simp only [jsize, jsizeL] at hsz
            omega
          have ht : jsizeL t < fuel := by
            simp only [jsize, jsizeL] at hsz
            have := jsize_pos x
            omega
          rw [ih1 x _ hx (headNotDig_items t r)]
          dsimp only
          rw [ih2 t r ht]
      | obj ps =>
        cases ps with
        | nil => rfl
        | cons k v t =>
          simp only [serialize, List.cons_append, List.append_assoc, List.nil_append]
          rw [parseVal_lbrace_member,
            parseStr_roundtrip k.data (':' :: ' ' :: (serialize v ++ (serializeMembers t ++ '\x7d' :: r)))]
          dsimp only
          show (match parseVal fuel (serialize v ++ (serializeMembers t ++ '\x7d' :: r)) with
            | none => none
            | some (v2, r3) =>
              match parseMembers fuel r3 with
              | none => none
              | some (ps, r4) => some (JVal.obj (JObj.cons (String.mk k.data) v2 ps), r4)) =
            some (JVal.obj (JObj.cons k v t), r)
          have hv : jsize v ≤ fuel := by
            simp only [jsize, jsizeO] at hsz
            omega
          have ht : jsizeO t < fuel := by
            simp only [jsize, jsizeO] at hsz
            have := jsize_pos v
            omega
          rw [ih1 v _ hv (headNotDig_members t r)]
          dsimp only
          rw [ih3 t r ht]
    · intro xs r hsz
      cases xs with
      | nil => rfl
      | cons x t =>
        show parseItems (fuel+1) ((',' :: ' ' :: (serialize x ++ serializeItems t)) ++ ']' :: r) =
          some (.cons x t, r)
        rw [List.cons_append, List.cons_append, List.append_assoc, parseItems_comma]
        have hx : jsize x ≤ fuel := by
          simp only [jsizeL] at hsz
          omega
        have ht : jsizeL t < fuel := by
          simp only [jsizeL] at hsz
          have := jsize_pos x
          omega
        rw [ih1 x _ hx (headNotDig_items t r)]
        dsimp only
        rw [ih2 t r ht]
    · intro ps r hsz
      cases ps with
      | nil => rfl
      | cons k v t =>
        simp only [serializeMembers, List.cons_append, List.append_assoc, List.nil_append]
        rw [parseMembers_comma,
          parseStr_roundtrip k.data (':' :: ' ' :: (serialize v ++ (serializeMembers t ++ '\x7d' :: r)))]
        dsimp only
        show (match parseVal fuel (serialize v ++ (serializeMembers t ++ '\x7d' :: r)) with
          | none => none
          | some (v2, r3) =>
            match parseMembers fuel r3 with
            | none => none
            | some (ps, r4) => some (JObj.cons (String.mk k.data) v2 ps, r4)) =
          some (JObj.cons k v t, r)
        have hv : jsize v ≤ fuel := by
          simp only [jsizeO] at hsz
          omega
        have ht : jsizeO t < fuel := by
          simp only [jsizeO] at hsz
          have := jsize_pos v
          omega
        rw [ih1 v _ hv (headNotDig_members t r)]
        dsimp only
        rw [ih3 t r ht]

theorem jsize_le_serialize_all : ∀ fuel : Nat,
    (∀ v, jsize v ≤ fuel → jsize v ≤ (serialize v).length) ∧
    (∀ xs, jsizeL xs ≤ fuel → jsizeL xs ≤ (serializeItems xs).length) ∧
    (∀ ps, jsizeO ps ≤ fuel → jsizeO ps ≤ (serializeMembers ps).length) := by
  intro fuel
  induction fuel with
  | zero =>
    refine ⟨fun v h => absurd h (by have := jsize_pos v; omega), fun xs h => ?_, fun ps h => ?_⟩
    · cases xs with
      | nil => simp [jsizeL]
      | cons x t => simp [jsizeL] at h
    · cases ps with
      | nil => simp [jsizeO]
      | cons k v t => simp [jsizeO] at h
  | succ fuel ih =>
    obtain ⟨ih1, ih2, ih3⟩ := ih
    refine ⟨?_, ?_, ?_⟩
    · intro v hsz
      cases v with
      | null => simp [jsize, serialize]
      | bool b => cases b <;> simp [jsize, serialize]
      | num n =>
        obtain ⟨d, ds, hd, _⟩ := natToChars_head n.natAbs
        show jsize (.num n) ≤ (intToChars n).length
        unfold intToChars
        by_cases hneg : n < 0
        · rw [if_pos hneg, hd]
          simp [jsize]
        · rw [if_neg hneg, hd]
          simp [jsize]
      | str s => simp [jsize, serialize]
      | arr xs =>
        cases xs with
        | nil => simp [jsize, jsizeL, serialize]
        | cons x t =>
          simp only [jsize, jsizeL] at hsz ⊢
          simp only [serialize, List.length_cons, List.length_append,
            List.length_singleton]
          have hx : jsize x ≤ (serialize x).length := by
            have := jsize_pos x
            exact ih1 x (by omega)
          have ht : jsizeL t ≤ (serializeItems t).length := by
            have := jsize_pos x
            exact ih2 t (by omega)
          omega
      | obj ps =>
        cases ps with
        | nil => simp [jsize, jsizeO, serialize]
        | cons k v t =>
          simp only [jsize, jsizeO] at hsz ⊢
          simp only [serialize, List.length_cons, List.length_append,
            List.length_singleton]
          have hv : jsize v ≤ (serialize v).length := by
            have := jsize_pos v
            exact ih1 v (by omega)
          have ht : jsizeO t ≤ (serializeMembers t).length := by
            have := jsize_pos v
            exact ih3 t (by omega)
          omega
    · intro xs hsz
      cases xs with
      | nil => simp [jsizeL]
      | cons x t =>
        simp only [jsizeL] at hsz ⊢
        simp only [serializeItems, List.length_cons, List.length_append]
        have hx : jsize x ≤ (serialize x).length := by
          have := jsize_pos x
          exact ih1 x (by omega)
        have ht : jsizeL t ≤ (serializeItems t).length := by
          have := jsize_pos x
          exact ih2 t (by omega)
        omega
    · intro ps hsz
      cases ps with
      | nil => simp [jsizeO]
      | cons k v t =>
        simp only [jsizeO] at hsz ⊢
        simp only [serializeMembers, List.length_cons, List.length_append,
          List.length_singleton]
        have hv : jsize v ≤ (serialize v).length := by
          have := jsize_pos v
          exact ih1 v (by omega)
        have ht : jsizeO t ≤ (serializeMembers t).length := by
          have := jsize_pos v
          exact ih3 t (by omega)
        omega

theorem jsize_le_serialize (v : JVal) : jsize v ≤ (serialize v).length :=
  (jsize_le_serialize_all (jsize v)).1 v le_rfl

/-- Round trip of `json.dumps`: parsing the serialized text reproduces
the original structure. -/
theorem parseJson_dumps (v : JVal) : parseJson (dumps v) = some v := by
  have hfuel : jsize v ≤ (serialize v).length + 1 := by
    have := jsize_le_serialize v
    omega
  have h := (parse_serialize_all ((serialize v).length + 1)).1 v []
    hfuel (fun c hc => Option.noConfusion hc)
  rw [List.append_nil] at h
  show (match parseVal ((serialize v).length + 1) (serialize v) with
    | some (v, []) => some v
    | _ => none) = some v
  rw [h]

/-- Claim C3: in a column whose first non-null sample is an object
(resp. a list), the normalized column replaces every object
(resp. list) cell by exactly the JSON-text serialization of the
original value, and parsing that string back (`parseJson`) reproduces
the original structure. -/
theorem claim_c3_serialization_roundtrip (rs : List Record) (df : DataFrame)
    (h : normalizeRecords rs = .ok df) :
    ∀ p ∈ (standardizeColumns (pdDataFrame rs)).cols,
      ((∃ f0, firstNonNull p.2 = some (.obj f0)) →
        (p.1, p.2.map flattenCellDict) ∈ df.cols ∧
        ∀ v ∈ p.2, v.isObjVal = true →
          flattenCellDict v = .str (dumps v) ∧ parseJson (dumps v) = some v) ∧
      ((∃ xs0, firstNonNull p.2 = some (.arr xs0)) →
        (p.1, p.2.map flattenCellList) ∈ df.cols ∧
        ∀ v ∈ p.2, v.isArrVal = true →
          flattenCellList v = .str (dumps v) ∧ parseJson (dumps v) = some v) := by
  intro p hp
  have hcols : df.cols = (standardizeColumns (pdDataFrame rs)).cols.map
      (fun c => (c.1, columnTreatmentSpec c.2)) := by
    rw [normalizeRecords_ok_eq rs df h]
    exact List.map_congr_left fun c hc => by rw [columnTreatmentPy_eq_spec]
  constructor
  · rintro ⟨f0, hf0⟩
    refine ⟨?_, ?_⟩
    · rw [hcols]
      refine List.mem_map.mpr ⟨p, hp, ?_⟩
      unfold columnTreatmentSpec
      rw [hf0]
    · intro v hv hvo
      cases v with
      | obj f1 => exact ⟨rfl, parseJson_dumps (.obj f1)⟩
      | null => cases hvo
      | bool b => cases hvo
      | num n => cases hvo
      | str t => cases hvo
      | arr xs => cases hvo
  · rintro ⟨xs0, hxs0⟩
    refine ⟨?_, ?_⟩
    · rw [hcols]
      refine List.mem_map.mpr ⟨p, hp, ?_⟩
      unfold columnTreatmentSpec
      rw [hxs0]
    · intro v hv hvo
      cases v with
      | arr xs1 => exact ⟨rfl, parseJson_dumps (.arr xs1)⟩
      | null => cases hvo
      | bool b => cases hvo
      | num n => cases hvo
      | str t => cases hvo
      | obj f1 => cases hvo

def jvC3 : JVal := .obj (.cons ("x") (.num 1) .nil)

def jlC3 : JVal := .arr (.cons (.num 2) .nil)

def rsC3 : List Record := [[(("o"), jvC3), (("l"), jlC3)]]

def dfC3 : DataFrame :=
  ⟨1, [("o", [.str ("\x7b\"x\": 1\x7d")]), ("l", [.str ("[2]")])]⟩

theorem claim_c3_witness :
    (normalizeRecords rsC3 = .ok dfC3 ∧
      ("o", [jvC3]) ∈ (standardizeColumns (pdDataFrame rsC3)).cols ∧
      firstNonNull [jvC3] = some jvC3) ∧
    (("o", [jvC3].map flattenCellDict) ∈ dfC3.cols ∧
      flattenCellDict jvC3 = .str (dumps jvC3) ∧ parseJson (dumps jvC3) = some jvC3) := by
  have h := claim_c3_serialization_roundtrip rsC3 dfC3 (by decide) ("o", [jvC3]) (by decide)
  have h2 := h.1 ⟨.cons ("x") (.num 1) .nil, by decide⟩
  have h3 := h2.2 jvC3 (by decide) (by decide)
  exact ⟨⟨by decide, by decide, by decide⟩, h2.1, h3.1, h3.2⟩
